import Mathlib

/-!
Verification of the punch-detection game (`proj-game-klai-kriad`).

Shallow embedding of the repository's core algorithms:
* `src/detection/detection_config.py` — tuning constants;
* `src/detection/fusion_detector.py` — `FusionDetector.detect_punch` and
  `_is_punch_detected` (scores as exact rationals, wall-clock time as a
  parameter);
* `src/detection/accelerometer/motion_analyzer.py` and
  `src/detection/accelerometer/accelerometer_strategy.py` — accelerometer
  scoring over the reals;
* `src/detection/pose/pose_analyzer.py` — pose scoring over the reals;
* `src/game/event_manager.py` — the hook registry (`register_hook`,
  `trigger_event`, `trigger_event_chain`);
* `src/evaluation/compare_ground_truth.py` — `match_events` and
  `calculate_metrics`.

Python floats are idealised as `ℚ` where only field arithmetic and
comparisons occur, and as `ℝ` where `math.sqrt` enters.  Python exceptions
are modelled with `Option`/explicit failure propagation; a `try/except`
boundary materialises as `Option.getD` with the handler's fallback value.
-/

namespace KlaiKriad

/-! ## Configuration constants (src/detection/detection_config.py)

Constants consumed by the fusion layer are stated over `ℚ`; constants
consumed by the analyzers (where square roots occur) are stated over `ℝ`. -/

namespace DetectionConfig

/-- ACCEL_PUNCH_THRESHOLD = 20.0 (m/s²). -/
def ACCEL_PUNCH_THRESHOLD : ℝ := 20

/-- ACCEL_SCORING_MAX = 40.0 (m/s²). -/
def ACCEL_SCORING_MAX : ℝ := 40

/-- VISUAL_PUNCH_THRESHOLD = 0.3. -/
def VISUAL_PUNCH_THRESHOLD : ℚ := 3/10

/-- POSE_ARM_EXTENSION_WEIGHT = 0.8. -/
noncomputable def POSE_ARM_EXTENSION_WEIGHT : ℝ := 4/5

/-- POSE_FORWARD_MOVEMENT_WEIGHT = 0.2. -/
noncomputable def POSE_FORWARD_MOVEMENT_WEIGHT : ℝ := 1/5

/-- POSE_SCORE_MULTIPLIER = 2.0. -/
def POSE_SCORE_MULTIPLIER : ℝ := 2

/-- PUNCH_VELOCITY_THRESHOLD = 2.0 (m/s). -/
def PUNCH_VELOCITY_THRESHOLD : ℝ := 2

/-- FRONT_FACING_SHOULDER_THRESHOLD = 0.3. -/
noncomputable def FRONT_FACING_SHOULDER_THRESHOLD : ℝ := 3/10

/-- FRONT_VELOCITY_MULTIPLIER = 1.0. -/
def FRONT_VELOCITY_MULTIPLIER : ℝ := 1

/-- SIDE_FORWARD_MULTIPLIER = 1.2. -/
noncomputable def SIDE_FORWARD_MULTIPLIER : ℝ := 6/5

/-- ACCEL_WEIGHT = 0.7. -/
def ACCEL_WEIGHT : ℚ := 7/10

/-- VISUAL_WEIGHT = 0.3. -/
def VISUAL_WEIGHT : ℚ := 3/10

/-- MINIMUM_COMBINED_SCORE = 0.2. -/
def MINIMUM_COMBINED_SCORE : ℚ := 1/5

/-- PUNCH_TRIGGER_ACCEL_THRESHOLD = 0.3. -/
def PUNCH_TRIGGER_ACCEL_THRESHOLD : ℚ := 3/10

/-- PUNCH_COOLDOWN = 0.5 (seconds). -/
def PUNCH_COOLDOWN : ℚ := 1/2

end DetectionConfig

open DetectionConfig

/-! ## Fusion detector (src/detection/fusion_detector.py)

Strategy results are the dictionaries produced by
`BaseDetectionStrategy.update_results`; `detect_punch` only ever reads their
`score` key (and, per claim C1's spec reading, would read `is_confident`), so
the result is modelled with exactly those two fields.  An absent result
(`current_results is None`) is `none`. -/

/-- The fields of a strategy's `current_results` dictionary that the fusion
layer is concerned with: `score` and `is_confident`
(see `AccelerometerStrategy._analyze_sensor_data`). -/
structure DetectionResult where
  score : ℚ
  is_confident : Bool
deriving DecidableEq, Repr

/-- A detection strategy as `FusionDetector.detect_punch` observes it:
`get_strategy_name()`, `is_strategy_active()` and `get_current_results()`
(src/detection/base_strategy.py). -/
structure Strategy where
  name : String
  active : Bool
  result : Option DetectionResult
deriving DecidableEq, Repr

/-- `FusionDetector`'s state as far as `detect_punch` reads and writes it.
The legacy `motion_analyzer`/`pose_analyzer` fields are both set to `None` in
`__init__` and never assigned anywhere in the repository, so the legacy
fallback branch at fusion_detector.py:129 is dead and is not modelled. -/
structure FusionDetector where
  strategies : List Strategy
  visual_punch_threshold : ℚ := VISUAL_PUNCH_THRESHOLD
  punch_cooldown : ℚ := PUNCH_COOLDOWN
  last_punch_time : ℚ := 0
deriving DecidableEq, Repr

/-- `result.get('score', 0) if result else 0` (fusion_detector.py:124,126). -/
def resultScore : Option DetectionResult → ℚ
  | none => 0
  | some r => r.score

/-- Python `'needle' in haystack` substring test. -/
def strContains (haystack needle : String) : Bool :=
  decide (needle.data <:+: haystack.data)

/-- One iteration of the strategy loop of `detect_punch`
(fusion_detector.py:117-126): for an active strategy, record its result and
overwrite `accel_score` / `visual_score` according to the name test.  The
accumulator is (strategy_results, accel_score, visual_score). -/
def collectStep (acc : List (String × Option DetectionResult) × ℚ × ℚ) (s : Strategy) :
    List (String × Option DetectionResult) × ℚ × ℚ :=
  if s.active then
    let results := acc.1 ++ [(s.name, s.result)]
    if strContains s.name "AccelerometerStrategy" then
      (results, resultScore s.result, acc.2.2)
    else if strContains s.name "PoseStrategy" then
      (results, acc.2.1, resultScore s.result)
    else
      (results, acc.2.1, acc.2.2)
  else acc

/-- The strategy loop of `detect_punch` (fusion_detector.py:112-126). -/
def collectResults (strategies : List Strategy) :
    List (String × Option DetectionResult) × ℚ × ℚ :=
  strategies.foldl collectStep ([], 0, 0)

/-- `FusionDetector._is_punch_detected` (fusion_detector.py:161-180). -/
def is_punch_detected (fd : FusionDetector) (accel_score visual_score combined_score : ℚ) : Bool :=
  let high_accel := accel_score > PUNCH_TRIGGER_ACCEL_THRESHOLD
  let high_visual := visual_score > fd.visual_punch_threshold
  let sufficient_combined := combined_score > MINIMUM_COMBINED_SCORE
  (high_accel || high_visual) && sufficient_combined

/-- The metrics dictionary returned by `detect_punch` on the non-cooldown
path (fusion_detector.py:146-151). -/
structure FusionDetails where
  strategy_results : List (String × Option DetectionResult)
  combined_score : ℚ
  accel_score : ℚ
  visual_score : ℚ
deriving DecidableEq, Repr

/-- The full outcome of one `detect_punch` call: the returned triple
(`is_punch`, `combined_score`, metrics — `none` models the empty dict `{}`)
together with the detector state after the call (`last_punch_time` may have
been updated). -/
structure DetectOutcome where
  is_punch : Bool
  combined_score : ℚ
  details : Option FusionDetails
  state : FusionDetector
deriving DecidableEq, Repr

/-- `FusionDetector.detect_punch` (fusion_detector.py:91-151), with
`time.time()` passed in as `current_time`. -/
def detect_punch (fd : FusionDetector) (current_time : ℚ) : DetectOutcome :=
  if current_time - fd.last_punch_time < fd.punch_cooldown then
    ⟨false, 0, none, fd⟩
  else
    let acc := collectResults fd.strategies
    let strategy_results := acc.1
    let accel_score := acc.2.1
    let visual_score := acc.2.2
    let combined_score := accel_score * ACCEL_WEIGHT + visual_score * VISUAL_WEIGHT
    let is_punch := is_punch_detected fd accel_score visual_score combined_score
    let fd' := if is_punch then { fd with last_punch_time := current_time } else fd
    ⟨is_punch, combined_score,
      some ⟨strategy_results, combined_score, accel_score, visual_score⟩, fd'⟩

/-- The accelerometer score `detect_punch` ends up using: the score of the
last active strategy whose name contains "AccelerometerStrategy" (0 when
there is none or its result is absent).  Characterises the overwrite
semantics of the accumulation loop. -/
def accelScoreOf (fd : FusionDetector) : ℚ :=
  match (fd.strategies.filter
      (fun s => s.active && strContains s.name "AccelerometerStrategy")).getLast? with
  | none => 0
  | some s => resultScore s.result

/-- The visual score `detect_punch` ends up using: the score of the last
active strategy whose name contains "PoseStrategy" but not
"AccelerometerStrategy" (0 when there is none or its result is absent). -/
def visualScoreOf (fd : FusionDetector) : ℚ :=
  match (fd.strategies.filter
      (fun s => s.active && !strContains s.name "AccelerometerStrategy" &&
        strContains s.name "PoseStrategy")).getLast? with
  | none => 0
  | some s => resultScore s.result

/-- Does some active strategy's current result carry `is_confident = true`?
This is the override condition claim C1 attributes to the punch decision. -/
def anyActiveConfident (fd : FusionDetector) : Bool :=
  fd.strategies.any (fun s =>
    s.active &&
      match s.result with
      | some r => r.is_confident
      | none => false)

/-- Modelled from the spec: the fusion weight of a strategy, keyed by its
name (§4.5's weight-by-name mapping, with the weights the configuration
assigns to the two known strategy kinds and the spec's `add` default of 1.0
otherwise).  Used only to state claim C2's normalised-average formula. -/
def specWeightOf (s : Strategy) : ℚ :=
  if strContains s.name "AccelerometerStrategy" then ACCEL_WEIGHT
  else if strContains s.name "PoseStrategy" then VISUAL_WEIGHT
  else 1

/-- Modelled from the spec: claim C2's combined score —
`sum(score_i × weight_i) / sum(weight_i)` over the active strategies when the
weight sum is positive, else 0 (spec §4.5 steps 2-3). -/
def specCombinedScore (fd : FusionDetector) : ℚ :=
  let act := fd.strategies.filter (·.active)
  let wsum := (act.map specWeightOf).sum
  if 0 < wsum then
    (act.map (fun s => resultScore s.result * specWeightOf s)).sum / wsum
  else 0

/-! ## Motion analyzer (src/detection/accelerometer/motion_analyzer.py)

Sensor values and scores live in `ℝ` because the magnitude is a euclidean
norm.  The sensor-data dictionary is `Option SensorSample`: `none` models a
falsy `sensor_data` (`None` or the empty dict), which short-circuits to
`(0, {})` before the `try` block. -/

/-- The x, y, z acceleration values of one sensor reading (missing keys
default to 0 via `sensor_data.get`, so the fields are plain reals). -/
structure SensorSample where
  x : ℝ
  y : ℝ
  z : ℝ

/-- The metrics dictionary built by `analyze_accelerometer_punch`
(motion_analyzer.py:46-51). -/
structure MotionMetrics where
  magnitude : ℝ
  magnitude_no_gravity : ℝ
  x : ℝ
  y : ℝ
  z : ℝ
  punch_score : ℝ

open Classical in
/-- `MotionAnalyzer.analyze_accelerometer_punch` (motion_analyzer.py:17-57).
`accel_punch_threshold` is the constructor argument; the empty metrics dict
`{}` is `none`.  The `try/except` around the body can only be triggered by
non-numeric sample values, which the idealised sample type excludes. -/
noncomputable def analyze_accelerometer_punch (accel_punch_threshold : ℝ)
    (sensor_data : Option SensorSample) : ℝ × Option MotionMetrics :=
  match sensor_data with
  | none => (0, none)
  | some s =>
    let magnitude := Real.sqrt (s.x ^ 2 + s.y ^ 2 + s.z ^ 2)
    let magnitude_no_gravity := |magnitude - 9.81|
    let punch_score :=
      if magnitude_no_gravity > accel_punch_threshold then
        min (magnitude_no_gravity / ACCEL_SCORING_MAX) 1
      else 0
    (punch_score,
      some ⟨magnitude, magnitude_no_gravity, s.x, s.y, s.z, punch_score⟩)

/-- The `score` and `is_confident` fields of the `analysis_result` dictionary
built by `AccelerometerStrategy._analyze_sensor_data`
(accelerometer_strategy.py:158-165): the analyzer is constructed with
`MotionAnalyzer(ACCEL_PUNCH_THRESHOLD)` and the confidence flag is
`punch_score > ACCEL_PUNCH_THRESHOLD`. -/
structure AccelAnalysis where
  score : ℝ
  is_confident : Prop

/-- `AccelerometerStrategy._analyze_sensor_data`, restricted to the result
fields the claims are about. -/
noncomputable def analyzeSensorData (sensor_data : Option SensorSample) : AccelAnalysis :=
  let r := analyze_accelerometer_punch ACCEL_PUNCH_THRESHOLD sensor_data
  ⟨r.1, r.1 > ACCEL_PUNCH_THRESHOLD⟩

/-! ## Pose analyzer (src/detection/pose/pose_analyzer.py)

A landmark is a point with x, y, z coordinates (visibility is never read).
The landmark list is indexed with the MediaPipe indices; a list too short to
contain an index raises `IndexError` in Python, modelled by `Option`-valued
lookup, and every `try/except` boundary materialises as `Option.getD` with
the handler's fallback.  The analyzer state (`prev_landmarks`,
`prev_timestamp`, `extension_velocity_history`) is passed and returned
explicitly; `time.time()` is the parameter `t` (the body reads the clock
twice — at pose_analyzer.py:55 and :198 — within the same call; both reads
are modelled by the same instant `t`). -/

/-- One MediaPipe landmark (the `visibility` field is never read). -/
structure Landmark where
  x : ℝ
  y : ℝ
  z : ℝ

/-- `mp.solutions.pose.PoseLandmark.NOSE.value`. -/
def NOSE : ℕ := 0

/-- `PoseLandmark.LEFT_SHOULDER.value`. -/
def LEFT_SHOULDER : ℕ := 11

/-- `PoseLandmark.RIGHT_SHOULDER.value`. -/
def RIGHT_SHOULDER : ℕ := 12

/-- `PoseLandmark.LEFT_ELBOW.value`. -/
def LEFT_ELBOW : ℕ := 13

/-- `PoseLandmark.RIGHT_ELBOW.value`. -/
def RIGHT_ELBOW : ℕ := 14

/-- `PoseLandmark.LEFT_WRIST.value`. -/
def LEFT_WRIST : ℕ := 15

/-- `PoseLandmark.RIGHT_WRIST.value`. -/
def RIGHT_WRIST : ℕ := 16

/-- The mutable state of a `PoseAnalyzer` instance: the retained previous
frame and timestamp, and the `extension_velocity_history` attribute
(`none` while the attribute does not exist yet). -/
structure PoseState where
  prev_landmarks : Option (List Landmark) := none
  prev_timestamp : Option ℝ := none
  extension_velocity_history : Option (List ℝ) := none

open Classical in
/-- `PoseAnalyzer.detect_orientation` (pose_analyzer.py:90-136).  Returns
`true` for "front", `false` for "side"; any extraction failure defaults to
"front" via the `except` handler. -/
noncomputable def detect_orientation (landmarks : List Landmark) : Bool :=
  (do
    let left_shoulder ← landmarks[LEFT_SHOULDER]?
    let right_shoulder ← landmarks[RIGHT_SHOULDER]?
    let nose ← landmarks[NOSE]?
    let shoulder_width := |left_shoulder.x - right_shoulder.x|
    let shoulder_center_x := (left_shoulder.x + right_shoulder.x) / 2
    let nose_offset := |nose.x - shoulder_center_x|
    let shoulder_z_diff := |left_shoulder.z - right_shoulder.z|
    let s1 : ℕ :=
      if shoulder_width > FRONT_FACING_SHOULDER_THRESHOLD then 2
      else if shoulder_width > FRONT_FACING_SHOULDER_THRESHOLD * 0.7 then 1
      else 0
    let s2 : ℕ := if nose_offset < shoulder_width * 0.3 then 1 else 0
    let s3 : ℕ := if shoulder_z_diff < 0.1 then 1 else 0
    let s4 : ℕ := if shoulder_width > 0.08 then 1 else 0
    pure (decide (s1 + s2 + s3 + s4 ≥ 3))).getD true

open Classical in
/-- `PoseAnalyzer.calculate_movement_velocity` (pose_analyzer.py:138-170).
Any failure (missing wrist landmarks in either frame, or an absent previous
timestamp making the subtraction raise) yields 0 via the bare `except`. -/
noncomputable def calculate_movement_velocity (st : PoseState)
    (current_landmarks : List Landmark) (current_timestamp : ℝ) : ℝ :=
  (do
    let left_wrist ← current_landmarks[LEFT_WRIST]?
    let right_wrist ← current_landmarks[RIGHT_WRIST]?
    let prev ← st.prev_landmarks
    let prev_left_wrist ← prev[LEFT_WRIST]?
    let prev_right_wrist ← prev[RIGHT_WRIST]?
    let prev_timestamp ← st.prev_timestamp
    let left_distance := Real.sqrt
      ((left_wrist.x - prev_left_wrist.x) ^ 2 + (left_wrist.y - prev_left_wrist.y) ^ 2)
    let right_distance := Real.sqrt
      ((right_wrist.x - prev_right_wrist.x) ^ 2 + (right_wrist.y - prev_right_wrist.y) ^ 2)
    let time_diff := current_timestamp - prev_timestamp
    if time_diff ≤ 0 then pure 0
    else pure (max (left_distance / time_diff) (right_distance / time_diff))).getD 0

open Classical in
/-- `PoseAnalyzer._calculate_z_velocity` (pose_analyzer.py:172-225).
Returns the smoothed extension velocity and the updated
`extension_velocity_history`; failure leaves the history untouched and
yields 0. -/
noncomputable def calcZVelocity (st : PoseState)
    (current_landmarks : List Landmark) (t : ℝ) : ℝ × Option (List ℝ) :=
  ((do
    let left_wrist ← current_landmarks[LEFT_WRIST]?
    let right_wrist ← current_landmarks[RIGHT_WRIST]?
    let left_shoulder ← current_landmarks[LEFT_SHOULDER]?
    let right_shoulder ← current_landmarks[RIGHT_SHOULDER]?
    let prev ← st.prev_landmarks
    let prev_left_wrist ← prev[LEFT_WRIST]?
    let prev_right_wrist ← prev[RIGHT_WRIST]?
    let prev_left_shoulder ← prev[LEFT_SHOULDER]?
    let prev_right_shoulder ← prev[RIGHT_SHOULDER]?
    let prev_timestamp ← st.prev_timestamp
    let left_extension_change :=
      |(left_wrist.z - left_shoulder.z) - (prev_left_wrist.z - prev_left_shoulder.z)|
    let right_extension_change :=
      |(right_wrist.z - right_shoulder.z) - (prev_right_wrist.z - prev_right_shoulder.z)|
    let time_diff := t - prev_timestamp
    if time_diff ≤ 0 then pure (0, st.extension_velocity_history)
    else
      let max_extension_velocity :=
        max (left_extension_change / time_diff) (right_extension_change / time_diff)
      match st.extension_velocity_history with
      | some history =>
        let history := history ++ [max_extension_velocity]
        let history := if history.length > 3 then history.tail else history
        pure (history.sum / history.length, some history)
      | none =>
        pure (max_extension_velocity, some [max_extension_velocity])) :
      Option (ℝ × Option (List ℝ))).getD (0, st.extension_velocity_history)

/-- Python truthiness of `self.prev_landmarks` (`None` and `[]` are falsy). -/
def prevTruthy : Option (List Landmark) → Bool
  | some (_ :: _) => true
  | _ => false

open Classical in
/-- `PoseAnalyzer.analyze_front_facing` (pose_analyzer.py:227-264).  Returns
the movement score and the (possibly updated) extension-velocity history. -/
noncomputable def analyze_front_facing (st : PoseState)
    (landmarks : List Landmark) (velocity : ℝ) (t : ℝ) : ℝ × Option (List ℝ) :=
  ((do
    let left_wrist ← landmarks[LEFT_WRIST]?
    let right_wrist ← landmarks[RIGHT_WRIST]?
    let left_shoulder ← landmarks[LEFT_SHOULDER]?
    let right_shoulder ← landmarks[RIGHT_SHOULDER]?
    let max_lateral := max |left_wrist.x - left_shoulder.x| |right_wrist.x - right_shoulder.x|
    let max_vertical := max |left_wrist.y - left_shoulder.y| |right_wrist.y - right_shoulder.y|
    let ev :=
      if prevTruthy st.prev_landmarks then calcZVelocity st landmarks t
      else (0, st.extension_velocity_history)
    let extension_velocity := ev.1
    let lateral_filter :=
      if max_lateral < 0.15 then 1 else max 0.3 (1 - (max_lateral - 0.15) * 3)
    let vertical_filter :=
      if max_vertical < 0.15 then 1 else max 0.3 (1 - (max_vertical - 0.15) * 3)
    let movement_filter := min lateral_filter vertical_filter
    let extension_score :=
      if extension_velocity > 0 then min (extension_velocity / PUNCH_VELOCITY_THRESHOLD) 1
      else 0
    let filtered_score := extension_score * movement_filter * FRONT_VELOCITY_MULTIPLIER
    pure (min filtered_score 1, ev.2)) : Option (ℝ × Option (List ℝ))).getD
    (0, st.extension_velocity_history)

open Classical in
/-- `PoseAnalyzer.analyze_side_facing` (pose_analyzer.py:266-294). -/
noncomputable def analyze_side_facing (landmarks : List Landmark) (velocity : ℝ) : ℝ :=
  ((do
    let left_wrist ← landmarks[LEFT_WRIST]?
    let right_wrist ← landmarks[RIGHT_WRIST]?
    let left_shoulder ← landmarks[LEFT_SHOULDER]?
    let right_shoulder ← landmarks[RIGHT_SHOULDER]?
    let max_forward := max |left_wrist.x - left_shoulder.x| |right_wrist.x - right_shoulder.x|
    let max_vertical := max |left_wrist.y - left_shoulder.y| |right_wrist.y - right_shoulder.y|
    let position_score := max (max_forward * SIDE_FORWARD_MULTIPLIER) max_vertical
    let velocity_component :=
      if velocity > 0 then min (velocity / PUNCH_VELOCITY_THRESHOLD) 1 else 0
    let movement_score :=
      max (position_score * 0.5 + velocity_component * 0.5) velocity_component
    pure (min movement_score 1)) : Option ℝ).getD 0

open Classical in
/-- The velocity component of the side-facing score, as claim C10 names it:
`min(v / punch-velocity-threshold, 1.0)` when `v > 0`, else 0. -/
noncomputable def velocityComponent (velocity : ℝ) : ℝ :=
  if velocity > 0 then min (velocity / PUNCH_VELOCITY_THRESHOLD) 1 else 0

/-- The metrics dictionary built by `analyze_pose_punch`
(pose_analyzer.py:74-82).  `orientation` is `true` for "front". -/
structure PoseMetrics where
  left_extension : ℝ
  right_extension : ℝ
  max_extension : ℝ
  movement_score : ℝ
  velocity_score : ℝ
  orientation : Bool
  punch_score : ℝ

open Classical in
/-- `PoseAnalyzer.analyze_pose_punch` (pose_analyzer.py:24-88).  Returns the
score, the metrics (`none` for the empty dict `{}`), and the analyzer state
after the call.  A falsy `landmarks` (`None`/empty list) short-circuits
before the `try`; an extraction failure inside the `try` (landmark list too
short) is caught by the `except`, which returns `(0, {})` — the state is
then unchanged, because `prev_landmarks`/`prev_timestamp` are only assigned
after every fallible step (pose_analyzer.py:71-72). -/
noncomputable def analyze_pose_punch (st : PoseState)
    (landmarks : List Landmark) (t : ℝ) : ℝ × Option PoseMetrics × PoseState :=
  match landmarks with
  | [] => (0, none, st)
  | _ :: _ =>
    ((do
      let left_wrist ← landmarks[LEFT_WRIST]?
      let right_wrist ← landmarks[RIGHT_WRIST]?
      let left_shoulder ← landmarks[LEFT_SHOULDER]?
      let right_shoulder ← landmarks[RIGHT_SHOULDER]?
      let _ ← landmarks[LEFT_ELBOW]?
      let _ ← landmarks[RIGHT_ELBOW]?
      let left_arm_extension := |left_wrist.x - left_shoulder.x|
      let right_arm_extension := |right_wrist.x - right_shoulder.x|
      let max_extension := max left_arm_extension right_arm_extension
      let orient := detect_orientation landmarks
      let velocity_score :=
        if st.prev_landmarks.isSome then calculate_movement_velocity st landmarks t
        else 0
      let ms :=
        if orient then analyze_front_facing st landmarks velocity_score t
        else (analyze_side_facing landmarks velocity_score, st.extension_velocity_history)
      let movement_score := ms.1
      let punch_score :=
        min ((max_extension * POSE_ARM_EXTENSION_WEIGHT +
          movement_score * POSE_FORWARD_MOVEMENT_WEIGHT) * POSE_SCORE_MULTIPLIER) 1
      pure (punch_score,
        some ⟨left_arm_extension, right_arm_extension, max_extension,
          movement_score, velocity_score, orient, punch_score⟩,
        ({ prev_landmarks := some landmarks, prev_timestamp := some t,
           extension_velocity_history := ms.2 } : PoseState))) :
      Option (ℝ × Option PoseMetrics × PoseState)).getD (0, none, st)

/-! ## Event manager (src/game/event_manager.py)

The registry maps an event name to its list of `(priority, callback)` pairs.
Callbacks are opaque values of a type parameter `κ`; a call either returns a
value or raises, modelled with `Except`.  `hooks` is a total function
because Python's `defaultdict(list)` yields `[]` for unknown events. -/

/-- `EventManager.__init__`: `self.hooks = defaultdict(list)`. -/
structure EventManager (κ : Type*) where
  hooks : String → List (Int × κ)

/-- A fresh event manager: every event has no hooks. -/
def EventManager.empty (κ : Type*) : EventManager κ := ⟨fun _ => []⟩

/-- The comparison `list.sort(key=lambda x: x[0], reverse=True)` sorts by:
a stable sort placing higher priorities first. -/
def hookGE {κ : Type*} (a b : Int × κ) : Bool := b.1 ≤ a.1

/-- `EventManager.register_hook` (event_manager.py:16-27): append the pair,
then stable-sort the event's list by priority, descending. -/
def register_hook {κ : Type*} (em : EventManager κ) (event_name : String)
    (callback : κ) (priority : Int := 0) : EventManager κ :=
  ⟨fun e =>
    if e = event_name then
      ((em.hooks event_name) ++ [(priority, callback)]).mergeSort hookGE
    else em.hooks e⟩

/-- `EventManager.trigger_event` (event_manager.py:49-72) for callbacks
taking arguments of type `α` and returning `β` (or raising `ε`): run every
hook in list order with the same arguments, appending its value to
`results` — `None` (here `none`) when it raises — and never aborting. -/
def trigger_event {α β ε : Type*} (em : EventManager (α → Except ε β))
    (event_name : String) (args : α) : List (Option β) :=
  (em.hooks event_name).foldl
    (fun results pc =>
      results ++ [match pc.2 args with
        | .ok v => some v
        | .error _ => none])
    ([] : List (Option β))

/-- Register a sequence of (priority, callback) pairs for one event, in
order, starting from the manager `em` — the shape of every registration
sequence in the repository (each strategy's `register_hooks` runs a series
of `register_hook` calls). -/
def registerFrom {κ : Type*} (em : EventManager κ) (event_name : String)
    (regs : List (Int × κ)) : EventManager κ :=
  regs.foldl (fun em pc => register_hook em event_name pc.2 pc.1) em

/-- Register a sequence of (priority, callback) pairs on a fresh manager. -/
def registerAll {κ : Type*} (event_name : String) (regs : List (Int × κ)) :
    EventManager κ :=
  registerFrom (EventManager.empty κ) event_name regs

/-- A Python dict with string keys and values in `V`, modelled as its items
list (keys unique by construction, first binding wins on lookup). -/
def Dict (V : Type*) : Type _ := List (String × V)

/-- `d[k] = v` on a dict: replace the first binding of `k`, or append. -/
def setItem {V : Type*} : Dict V → String → V → Dict V
  | [], k, v => [(k, v)]
  | (k', v') :: rest, k, v =>
    if k' = k then (k, v) :: rest else (k', v') :: setItem rest k v

/-- Python `context.update(result)`: set each binding of `d` in `c`,
in order (key-wise overwrite). -/
def dictUpdate {V : Type*} (c d : Dict V) : Dict V :=
  d.foldl (fun acc kv => setItem acc kv.1 kv.2) c

/-- Dict lookup, `c["y"]`. -/
def dictGet {V : Type*} (c : Dict V) (k : String) : Option V :=
  List.lookup k c

/-- What a chained handler's return value looks like to
`isinstance(result, dict)`: either a dict, or anything else. -/
inductive ChainRet (V : Type*) where
  | dict (d : Dict V)
  | nondict

/-- One iteration of the `trigger_event_chain` loop (event_manager.py:128-137):
call the handler on the running context; merge a returned dict into the
context; leave the context alone when the handler returns a non-dict or
raises. -/
def chainStep {V α ε : Type*} (args : α) (context : Dict V)
    (pc : Int × (Dict V → α → Except ε (ChainRet V))) : Dict V :=
  match pc.2 context args with
  | .ok (.dict d) => dictUpdate context d
  | .ok .nondict => context
  | .error _ => context

/-- `EventManager.trigger_event_chain` (event_manager.py:109-138).
`initial_context.copy()` is a shallow copy; since the model is pure, the
copy is the value itself. -/
def trigger_event_chain {V α ε : Type*}
    (em : EventManager (Dict V → α → Except ε (ChainRet V)))
    (event_name : String) (initial_context : Dict V) (args : α) : Dict V :=
  (em.hooks event_name).foldl (chainStep args) initial_context

/-! ## Ground-truth evaluator (src/evaluation/compare_ground_truth.py)

Timestamps are exact rationals.  `match_events` is the greedy
ground-truth-driven matcher; `calculate_metrics` computes precision, recall
and F1. -/

/-- A punch event (detection or ground truth),
compare_ground_truth.py:17-23. -/
structure PunchEvent where
  timestamp : ℚ
  hand : String
  source : String := "detection"
  confidence : Option ℚ := none
deriving DecidableEq, Repr

/-- The result of matching one ground-truth event
(compare_ground_truth.py:26-31). -/
structure MatchResult where
  ground_truth : PunchEvent
  matched_detection : Option PunchEvent := none
  time_diff : Option ℚ := none
deriving DecidableEq, Repr

/-- One iteration of the inner loop of `match_events`
(compare_ground_truth.py:128-139): skip a used index; for a qualifying
candidate (same hand, |time difference| within the window), keep it when
there is no best yet or its absolute time difference is strictly smaller.
The accumulator is the running
`(best_detection_idx, best_match, best_time_diff)`, `none` while
`best_match is None`. -/
def bestStep (gt : PunchEvent) (match_window : ℚ) (used : List ℕ)
    (best : Option (ℕ × PunchEvent × ℚ)) (p : ℕ × PunchEvent) :
    Option (ℕ × PunchEvent × ℚ) :=
  if p.1 ∈ used then best
  else
    if |p.2.timestamp - gt.timestamp| ≤ match_window ∧ p.2.hand = gt.hand then
      match best with
      | none => some (p.1, p.2, p.2.timestamp - gt.timestamp)
      | some b =>
        if |p.2.timestamp - gt.timestamp| < |b.2.2| then
          some (p.1, p.2, p.2.timestamp - gt.timestamp)
        else best
    else best

/-- The inner loop of `match_events` (compare_ground_truth.py:124-139): fold
over the enumerated detections in order with no best candidate to start. -/
def findBest (dets : List (ℕ × PunchEvent)) (used : List ℕ)
    (gt : PunchEvent) (match_window : ℚ) : Option (ℕ × PunchEvent × ℚ) :=
  dets.foldl (bestStep gt match_window used) none

/-- An enumerated detection qualifies for a ground-truth event when its
index is unused, its timestamp is within the match window of the
(offset-adjusted) ground-truth timestamp, and the hands agree — the
condition of compare_ground_truth.py:129-135. -/
def qualifies (gt : PunchEvent) (match_window : ℚ) (used : List ℕ)
    (p : ℕ × PunchEvent) : Prop :=
  p.1 ∉ used ∧ |p.2.timestamp - gt.timestamp| ≤ match_window ∧ p.2.hand = gt.hand

/-- The offset adjustment `match_events` applies to each ground-truth event
(compare_ground_truth.py:110-117); the optional `confidence` is dropped. -/
def adjustEvent (offset : ℚ) (gt : PunchEvent) : PunchEvent :=
  { timestamp := gt.timestamp + offset, hand := gt.hand, source := gt.source }

/-- A sound match result over the enumerated detections `dets`: whatever
detection it pairs with shares the hand of its (adjusted) ground-truth
event, lies within the match window, and its recorded time difference is
the signed detection-minus-ground-truth difference. -/
def matchedValid (dets : List (ℕ × PunchEvent)) (match_window : ℚ)
    (mr : MatchResult) : Prop :=
  ∀ det, mr.matched_detection = some det →
    det.hand = mr.ground_truth.hand ∧
    ∃ td, mr.time_diff = some td ∧ td = det.timestamp - mr.ground_truth.timestamp ∧
      |td| ≤ match_window ∧ ∃ idx, (idx, det) ∈ dets

/-- Greedy optimality of a match result against a set `us` of used
detection indices: a matched result's absolute time difference is minimal
among the detections outside `us` that would qualify, and an unmatched
result has no qualifying detection outside `us` at all. -/
def matchMinimal (dets : List (ℕ × PunchEvent)) (match_window : ℚ)
    (us : List ℕ) (mr : MatchResult) : Prop :=
  (∀ det td, mr.matched_detection = some det → mr.time_diff = some td →
    ∀ p ∈ dets, p.1 ∉ us →
      |p.2.timestamp - mr.ground_truth.timestamp| ≤ match_window →
      p.2.hand = mr.ground_truth.hand →
      |td| ≤ |p.2.timestamp - mr.ground_truth.timestamp|) ∧
  (mr.matched_detection = none → ∀ p ∈ dets, p.1 ∉ us →
    ¬(|p.2.timestamp - mr.ground_truth.timestamp| ≤ match_window ∧
      p.2.hand = mr.ground_truth.hand))

/-- One iteration of the outer loop of `match_events`
(compare_ground_truth.py:123-150): find the best unused detection for one
(offset-adjusted) ground-truth event; on success record the match and mark
the detection used, otherwise record an unmatched result (a false
negative).  The state is `(matched_results, used_detections)`. -/
def matchStep (dets : List (ℕ × PunchEvent)) (match_window : ℚ)
    (st : List MatchResult × List ℕ) (gt : PunchEvent) :
    List MatchResult × List ℕ :=
  match findBest dets st.2 gt match_window with
  | some (idx, det, td) => (st.1 ++ [⟨gt, some det, some td⟩], st.2 ++ [idx])
  | none => (st.1 ++ [⟨gt, none, none⟩], st.2)

/-- The outer loop of `match_events`: fold over the adjusted ground-truth
events in their given order, starting from no results and no used
detections. -/
def matchLoop (dets : List (ℕ × PunchEvent)) (match_window : ℚ)
    (gts : List PunchEvent) : List MatchResult × List ℕ :=
  gts.foldl (matchStep dets match_window) ([], [])

/-- The value returned by `match_events`: `(matched_results,
unmatched_detections, true_positives, false_positives, false_negatives)`. -/
structure MatchOutcome where
  matched_results : List MatchResult
  unmatched_detections : List PunchEvent
  tp : ℕ
  fp : ℕ
  fn : ℕ
deriving DecidableEq, Repr

/-- `match_events` (compare_ground_truth.py:92-163). -/
def match_events (detections ground_truth : List PunchEvent)
    (match_window : ℚ := 3/10) (offset : ℚ := 0) : MatchOutcome :=
  let adjusted_ground_truth := ground_truth.map (adjustEvent offset)
  let r := matchLoop detections.enum match_window adjusted_ground_truth
  let matched_results := r.1
  let used := r.2
  let unmatched_detections :=
    (detections.enum.filter (fun p => p.1 ∉ used)).map (·.2)
  { matched_results := matched_results
    unmatched_detections := unmatched_detections
    tp := (matched_results.filter (fun mr => mr.matched_detection.isSome)).length
    fp := unmatched_detections.length
    fn := (matched_results.filter (fun mr => mr.matched_detection.isNone)).length }

/-- `calculate_metrics` (compare_ground_truth.py:166-185): precision, recall
and F1, each 0 when its denominator is 0. -/
def calculate_metrics (tp fp fn : ℕ) : ℚ × ℚ × ℚ :=
  let precision : ℚ := if 0 < tp + fp then (tp : ℚ) / ((tp : ℚ) + fp) else 0
  let recallScore : ℚ := if 0 < tp + fn then (tp : ℚ) / ((tp : ℚ) + fn) else 0
  let f1 : ℚ :=
    if 0 < precision + recallScore then
      2 * (precision * recallScore) / (precision + recallScore)
    else 0
  (precision, recallScore, f1)

/-! ## Concrete states used by the witnesses and counterexamples -/

/-- The derived activity magnitude of a sample (motion_analyzer.py:34-37),
named so the motion-analyzer theorems can mention it. -/
noncomputable def activityOf (x y z : ℝ) : ℝ :=
  |Real.sqrt (x ^ 2 + y ^ 2 + z ^ 2) - 9.81|

/-- How claim C1 reads the punch decision: some active strategy is
confident, or the combined score exceeds the minimum. -/
def specPunchDecision (fd : FusionDetector) (t : ℚ) : Prop :=
  anyActiveConfident fd = true ∨
    (detect_punch fd t).combined_score > MINIMUM_COMBINED_SCORE

/-- Rewrite the `is_confident` flag of one strategy's result through `f`,
leaving its name, activity and score untouched. -/
def mapResultConfident (f : Bool → Bool) (s : Strategy) : Strategy :=
  { s with result := s.result.map fun r => { r with is_confident := f r.is_confident } }

/-- Flip every `is_confident` flag of every strategy result through `f`,
leaving every score untouched.  Used to state that the punch decision never
reads the confidence flags. -/
def mapConfident (f : Bool → Bool) (fd : FusionDetector) : FusionDetector :=
  { fd with strategies := fd.strategies.map (mapResultConfident f) }

/-- A detector holding one active accelerometer strategy whose latest result
has score 0.25 and `is_confident = true` (claim C1's counterexample state:
the combined score 0.25·0.7 = 0.175 is at or below
MINIMUM_COMBINED_SCORE = 0.2). -/
def fdConfident : FusionDetector :=
  { strategies := [⟨"AccelerometerStrategy", true, some ⟨1/4, true⟩⟩]
    last_punch_time := 0 }

/-- A detector holding one active accelerometer strategy whose latest result
has full score 1 (claim C2's counterexample state and a punch-yielding state
for the witnesses). -/
def fdAccelOne : FusionDetector :=
  { strategies := [⟨"AccelerometerStrategy", true, some ⟨1, false⟩⟩]
    last_punch_time := 0 }

/-- Claim C6's example detections: (t = 1.05, hand "L") and
(t = 1.05, hand "R"). -/
def detsPair : List PunchEvent :=
  [{ timestamp := 21/20, hand := "L" }, { timestamp := 21/20, hand := "R" }]

/-- Claim C6's example ground truth: a single left-hand event at t = 1.0. -/
def gtSingle : List PunchEvent :=
  [{ timestamp := 1, hand := "L", source := "peer" }]

/-- Claim C7's handler H1 (priority 5): returns 1. -/
def hookOk : Unit → Except Unit ℕ := fun _ => .ok 1

/-- Claim C7's handler H2 (priority 10): always raises. -/
def hookRaise : Unit → Except Unit ℕ := fun _ => .error ()

/-- Claim C7's registry: H1 registered at priority 5, then H2 at
priority 10, both for event "x". -/
def emPrio : EventManager (Unit → Except Unit ℕ) :=
  register_hook (register_hook (EventManager.empty _) "x" hookOk 5) "x" hookRaise 10

/-- Claim C8's first handler: returns the dict `{"y": 20}`. -/
def hookSetY : Dict ℤ → Unit → Except Unit (ChainRet ℤ) :=
  fun _ _ => .ok (.dict [("y", 20)])

/-- Claim C8's second handler: reads `context["y"]` and echoes what it
observed under the key "seen". -/
def hookSeen : Dict ℤ → Unit → Except Unit (ChainRet ℤ) :=
  fun context _ => .ok (.dict [("seen", (dictGet context "y").getD 0)])

/-- Claim C8's registry: `hookSetY` then `hookSeen` for event "draw"
(priorities 10 and 5, so they run in that order). -/
def emChain : EventManager (Dict ℤ → Unit → Except Unit (ChainRet ℤ)) :=
  register_hook (register_hook (EventManager.empty _) "draw" hookSetY 10) "draw" hookSeen 5

/-! ## Theorems -/

open DetectionConfig
open List

theorem accel_score_eq (th : ℝ) (s : SensorSample) :
    (analyze_accelerometer_punch th (some s)).1 =
      if activityOf s.x s.y s.z > th then min (activityOf s.x s.y s.z / ACCEL_SCORING_MAX) 1
      else 0 := by
  simp only [analyze_accelerometer_punch, activityOf]

theorem accel_score_nonneg (th : ℝ) (sd : Option SensorSample) :
    0 ≤ (analyze_accelerometer_punch th sd).1 := by
  cases sd with
  | none => simp [analyze_accelerometer_punch]
  | some s =>
    rw [accel_score_eq]
    split_ifs with h
    · exact le_min (div_nonneg (abs_nonneg _) (by norm_num [ACCEL_SCORING_MAX])) zero_le_one
    · exact le_refl 0

theorem accel_score_le_one (th : ℝ) (sd : Option SensorSample) :
    (analyze_accelerometer_punch th sd).1 ≤ 1 := by
  cases sd with
  | none => simp [analyze_accelerometer_punch]
  | some s =>
    rw [accel_score_eq]
    split_ifs with h
    · exact min_le_right _ _
    · exact zero_le_one

/-- C3: every accelerometer analysis result has a score in [0, 1], and its
`is_confident` flag — the comparison `punch_score > ACCEL_PUNCH_THRESHOLD`
with ACCEL_PUNCH_THRESHOLD = 20 — is never true. -/
theorem claim_C3 (sd : Option SensorSample) :
    0 ≤ (analyzeSensorData sd).score ∧ (analyzeSensorData sd).score ≤ 1 ∧
      ¬ (analyzeSensorData sd).is_confident := by
  refine ⟨accel_score_nonneg _ sd, accel_score_le_one _ sd, ?_⟩
  show ¬ (analyze_accelerometer_punch ACCEL_PUNCH_THRESHOLD sd).1 > ACCEL_PUNCH_THRESHOLD
  have h1 := accel_score_le_one ACCEL_PUNCH_THRESHOLD sd
  rw [not_lt]
  calc (analyze_accelerometer_punch ACCEL_PUNCH_THRESHOLD sd).1 ≤ 1 := h1
    _ ≤ ACCEL_PUNCH_THRESHOLD := by norm_num [ACCEL_PUNCH_THRESHOLD]

/-- C5: the motion-analyzer score is 0 at or below the punch threshold,
`min(activity / 40, 1)` above it, monotonically non-decreasing in the
activity magnitude above the threshold, 0.75 at activity 30, and 1 at or
above activity 40. -/
theorem claim_C5 (x y z : ℝ) :
    (activityOf x y z ≤ ACCEL_PUNCH_THRESHOLD →
      (analyze_accelerometer_punch ACCEL_PUNCH_THRESHOLD (some ⟨x, y, z⟩)).1 = 0) ∧
    (ACCEL_PUNCH_THRESHOLD < activityOf x y z →
      (analyze_accelerometer_punch ACCEL_PUNCH_THRESHOLD (some ⟨x, y, z⟩)).1 =
        min (activityOf x y z / ACCEL_SCORING_MAX) 1) ∧
    (∀ x' y' z', ACCEL_PUNCH_THRESHOLD < activityOf x y z →
      activityOf x y z ≤ activityOf x' y' z' →
      (analyze_accelerometer_punch ACCEL_PUNCH_THRESHOLD (some ⟨x, y, z⟩)).1 ≤
        (analyze_accelerometer_punch ACCEL_PUNCH_THRESHOLD (some ⟨x', y', z'⟩)).1) ∧
    (activityOf x y z = 30 →
      (analyze_accelerometer_punch ACCEL_PUNCH_THRESHOLD (some ⟨x, y, z⟩)).1 = 3/4) ∧
    (40 ≤ activityOf x y z →
      (analyze_accelerometer_punch ACCEL_PUNCH_THRESHOLD (some ⟨x, y, z⟩)).1 = 1) := by
  refine ⟨?_, ?_, ?_, ?_, ?_⟩
  · intro h
    rw [accel_score_eq, if_neg (not_lt.mpr h)]
  · intro h
    rw [accel_score_eq, if_pos h]
  · intro x' y' z' h h'
    rw [accel_score_eq, accel_score_eq, if_pos h, if_pos (lt_of_lt_of_le h h')]
    exact min_le_min (div_le_div_of_nonneg_right h' (by norm_num [ACCEL_SCORING_MAX]))
      (le_refl 1)
  · intro h
    rw [accel_score_eq, if_pos (by rw [h]; norm_num [ACCEL_PUNCH_THRESHOLD]), h]
    rw [min_eq_left (by norm_num [ACCEL_SCORING_MAX])]
    norm_num [ACCEL_SCORING_MAX]
  · intro h
    rw [accel_score_eq,
      if_pos (lt_of_lt_of_le (by norm_num [ACCEL_PUNCH_THRESHOLD]) h)]
    rw [min_eq_right ((le_div_iff₀ (by norm_num [ACCEL_SCORING_MAX])).mpr (by
      norm_num [ACCEL_SCORING_MAX]; linarith))]

/-- C5 witness: the sample (39.81, 0, 0) has activity magnitude exactly 30
and scores 0.75. -/
theorem claim_C5_witness :
    activityOf 39.81 0 0 = 30 ∧
      (analyze_accelerometer_punch ACCEL_PUNCH_THRESHOLD
        (some ⟨39.81, 0, 0⟩)).1 = 3/4 := by
  have h30 : activityOf 39.81 0 0 = 30 := by
    unfold activityOf
    rw [show ((39.81:ℝ) ^ 2 + 0 ^ 2 + 0 ^ 2) = 39.81 ^ 2 by norm_num]
    rw [Real.sqrt_sq (by norm_num : (0:ℝ) ≤ 39.81)]
    norm_num
  exact ⟨h30, (claim_C5 39.81 0 0).2.2.2.1 h30⟩

/-- C9: the analyzers degrade instead of raising: an absent/empty
accelerometer sample yields score 0 with empty metrics; an empty landmark
list yields score 0 with empty metrics and unchanged analyzer state; and a
malformed landmark list (too short for the required indices, the Python
`IndexError` case) is absorbed by the `except` boundary, again yielding
score 0, empty metrics, unchanged state. -/
theorem claim_C9 :
    (∀ th : ℝ, (analyze_accelerometer_punch th none) = (0, none)) ∧
    (∀ (st : PoseState) (t : ℝ), analyze_pose_punch st [] t = (0, none, st)) ∧
    (∀ (st : PoseState) (landmarks : List Landmark) (t : ℝ),
      landmarks.length ≤ RIGHT_WRIST → analyze_pose_punch st landmarks t = (0, none, st)) := by
  refine ⟨fun th => rfl, fun st t => rfl, fun st landmarks t hlen => ?_⟩
  have h16 : landmarks[RIGHT_WRIST]? = none := by
    rw [List.getElem?_eq_none hlen]
  cases landmarks with
  | nil => rfl
  | cons a l =>
    cases h15 : (a :: l)[LEFT_WRIST]? with
    | none => simp [analyze_pose_punch, h15]
    | some lw => simp [analyze_pose_punch, h15, h16]

/-- C9 witness: a one-landmark list is malformed for the pose analyzer and
yields the degraded result. -/
theorem claim_C9_witness :
    analyze_pose_punch {} [⟨0, 0, 0⟩] 1 = (0, none, {}) :=
  claim_C9.2.2 {} [⟨0, 0, 0⟩] 1 (by norm_num [RIGHT_WRIST])

/-- C10: for a well-formed landmark list, the side-facing movement score is
never below the pure velocity component
`min(velocity / PUNCH_VELOCITY_THRESHOLD, 1)` (0 for non-positive
velocity): the position/velocity blend is combined with the velocity
component by a max rule and capped at 1, which cannot cut below the
velocity component. -/
theorem claim_C10 (landmarks : List Landmark) (velocity : ℝ)
    (hlen : RIGHT_WRIST < landmarks.length) (hv : 0 ≤ velocity) :
    velocityComponent velocity ≤ analyze_side_facing landmarks velocity := by
  have h15 : LEFT_WRIST < landmarks.length :=
    lt_of_le_of_lt (by norm_num [LEFT_WRIST, RIGHT_WRIST]) hlen
  have h11 : LEFT_SHOULDER < landmarks.length :=
    lt_of_le_of_lt (by norm_num [LEFT_SHOULDER, RIGHT_WRIST]) hlen
  have h12 : RIGHT_SHOULDER < landmarks.length :=
    lt_of_le_of_lt (by norm_num [RIGHT_SHOULDER, RIGHT_WRIST]) hlen
  have hvc1 : velocityComponent velocity ≤ 1 := by
    unfold velocityComponent
    split_ifs with h
    · exact min_le_right _ _
    · exact zero_le_one
  simp only [analyze_side_facing, List.getElem?_eq_getElem hlen,
    List.getElem?_eq_getElem h15, List.getElem?_eq_getElem h11,
    List.getElem?_eq_getElem h12, Option.bind_some, Option.some_bind,
    Option.getD_some]
  exact le_min (le_trans (le_max_right _ _) (le_refl _)) hvc1

/-- C10 witness: seventeen zero landmarks with velocity 1. -/
theorem claim_C10_witness :
    velocityComponent 1 ≤
      analyze_side_facing (List.replicate 17 ⟨0, 0, 0⟩) 1 :=
  claim_C10 (List.replicate 17 ⟨0, 0, 0⟩) 1 (by norm_num [RIGHT_WRIST]) (by norm_num)

theorem foldl_overwrite (g : Strategy → Bool) (v : Strategy → ℚ) :
    ∀ (l : List Strategy) (x : ℚ),
      l.foldl (fun x s => if g s then v s else x) x =
        (match (l.filter g).getLast? with
          | none => x
          | some s => v s) := by
  intro l
  induction l with
  | nil => intro x; rfl
  | cons s l ih =>
    intro x
    by_cases hg : g s
    · rw [List.foldl_cons, if_pos hg, ih, List.filter_cons_of_pos hg]
      cases hfl : l.filter g with
      | nil => simp
      | cons b m =>
        rw [List.getLast?_cons_cons]
        cases hl : (b :: m).getLast? with
        | none => simp at hl
        | some y => rfl
    · rw [List.foldl_cons, if_neg hg, ih, List.filter_cons_of_neg hg]

theorem collectStep_accel (acc : List (String × Option DetectionResult) × ℚ × ℚ)
    (s : Strategy) :
    (collectStep acc s).2.1 =
      if s.active && strContains s.name "AccelerometerStrategy" then resultScore s.result
      else acc.2.1 := by
  by_cases ha : s.active
  · by_cases hA : strContains s.name "AccelerometerStrategy"
    · simp [collectStep, ha, hA]
    · by_cases hP : strContains s.name "PoseStrategy" <;> simp [collectStep, ha, hA, hP]
  · simp [collectStep, ha]

theorem collectStep_visual (acc : List (String × Option DetectionResult) × ℚ × ℚ)
    (s : Strategy) :
    (collectStep acc s).2.2 =
      if s.active && !strContains s.name "AccelerometerStrategy" &&
          strContains s.name "PoseStrategy" then resultScore s.result
      else acc.2.2 := by
  by_cases ha : s.active
  · by_cases hA : strContains s.name "AccelerometerStrategy"
    · simp [collectStep, ha, hA]
    · by_cases hP : strContains s.name "PoseStrategy" <;> simp [collectStep, ha, hA, hP]
  · simp [collectStep, ha]

theorem collect_accel : ∀ (l : List Strategy)
    (acc : List (String × Option DetectionResult) × ℚ × ℚ),
    (l.foldl collectStep acc).2.1 =
      l.foldl (fun x s =>
        if s.active && strContains s.name "AccelerometerStrategy" then resultScore s.result
        else x) acc.2.1 := by
  intro l
  induction l with
  | nil => intro acc; rfl
  | cons s l ih => intro acc; rw [List.foldl_cons, List.foldl_cons, ih, collectStep_accel]

theorem collect_visual : ∀ (l : List Strategy)
    (acc : List (String × Option DetectionResult) × ℚ × ℚ),
    (l.foldl collectStep acc).2.2 =
      l.foldl (fun x s =>
        if s.active && !strContains s.name "AccelerometerStrategy" &&
            strContains s.name "PoseStrategy" then resultScore s.result
        else x) acc.2.2 := by
  intro l
  induction l with
  | nil => intro acc; rfl
  | cons s l ih => intro acc; rw [List.foldl_cons, List.foldl_cons, ih, collectStep_visual]

theorem accelScoreOf_eq (fd : FusionDetector) :
    accelScoreOf fd = (collectResults fd.strategies).2.1 := by
  show _ = (fd.strategies.foldl collectStep ([], 0, 0)).2.1
  rw [collect_accel, foldl_overwrite]
  rfl

theorem visualScoreOf_eq (fd : FusionDetector) :
    visualScoreOf fd = (collectResults fd.strategies).2.2 := by
  show _ = (fd.strategies.foldl collectStep ([], 0, 0)).2.2
  rw [collect_visual, foldl_overwrite]
  rfl

theorem detect_punch_eq (fd : FusionDetector) (t : ℚ)
    (h : ¬ (t - fd.last_punch_time < fd.punch_cooldown)) :
    detect_punch fd t =
      ⟨is_punch_detected fd (accelScoreOf fd) (visualScoreOf fd)
          (accelScoreOf fd * ACCEL_WEIGHT + visualScoreOf fd * VISUAL_WEIGHT),
        accelScoreOf fd * ACCEL_WEIGHT + visualScoreOf fd * VISUAL_WEIGHT,
        some ⟨(collectResults fd.strategies).1,
          accelScoreOf fd * ACCEL_WEIGHT + visualScoreOf fd * VISUAL_WEIGHT,
          accelScoreOf fd, visualScoreOf fd⟩,
        if is_punch_detected fd (accelScoreOf fd) (visualScoreOf fd)
            (accelScoreOf fd * ACCEL_WEIGHT + visualScoreOf fd * VISUAL_WEIGHT)
        then { fd with last_punch_time := t } else fd⟩ := by
  rw [accelScoreOf_eq, visualScoreOf_eq]
  simp only [detect_punch, if_neg h]

theorem mapConfident_accel (f : Bool → Bool) (fd : FusionDetector) :
    accelScoreOf (mapConfident f fd) = accelScoreOf fd := by
  unfold accelScoreOf mapConfident
  rw [List.filter_map, List.getLast?_map]
  have hpg : ((fun s : Strategy => s.active && strContains s.name "AccelerometerStrategy") ∘
      mapResultConfident f) =
      (fun s : Strategy => s.active && strContains s.name "AccelerometerStrategy") := rfl
  rw [hpg]
  cases h : (fd.strategies.filter
      (fun s => s.active && strContains s.name "AccelerometerStrategy")).getLast? with
  | none => rfl
  | some s =>
    simp only [Option.map_some]
    cases hr : s.result <;> simp [resultScore, mapResultConfident, hr]

theorem mapConfident_visual (f : Bool → Bool) (fd : FusionDetector) :
    visualScoreOf (mapConfident f fd) = visualScoreOf fd := by
  unfold visualScoreOf mapConfident
  rw [List.filter_map, List.getLast?_map]
  have hpg : ((fun s : Strategy => s.active && !strContains s.name "AccelerometerStrategy" &&
      strContains s.name "PoseStrategy") ∘ mapResultConfident f) =
      (fun s : Strategy => s.active && !strContains s.name "AccelerometerStrategy" &&
        strContains s.name "PoseStrategy") := rfl
  rw [hpg]
  cases h : (fd.strategies.filter
      (fun s => s.active && !strContains s.name "AccelerometerStrategy" &&
        strContains s.name "PoseStrategy")).getLast? with
  | none => rfl
  | some s =>
    simp only [Option.map_some]
    cases hr : s.result <;> simp [resultScore, mapResultConfident, hr]

/-- C1 counterexample: a single active strategy whose result carries
`is_confident = true` and score 0.25, observed outside the cooldown window,
does not produce a punch — `_is_punch_detected` requires the combined score
to exceed the minimum in conjunction with a per-source threshold, and never
reads the confidence flags, so the claimed override path does not exist. -/
theorem claim_C1_counterexample :
    anyActiveConfident fdConfident = true ∧
    ¬ (100 - fdConfident.last_punch_time < fdConfident.punch_cooldown) ∧
    (detect_punch fdConfident 100).combined_score ≤ MINIMUM_COMBINED_SCORE ∧
    (detect_punch fdConfident 100).is_punch = false := by
  refine ⟨rfl, by norm_num [fdConfident, PUNCH_COOLDOWN], ?_, ?_⟩ <;>
    norm_num [detect_punch, fdConfident, PUNCH_COOLDOWN, collectResults, collectStep,
      is_punch_detected, strContains, resultScore, PUNCH_TRIGGER_ACCEL_THRESHOLD,
      VISUAL_PUNCH_THRESHOLD, MINIMUM_COMBINED_SCORE, ACCEL_WEIGHT, VISUAL_WEIGHT]

/-- C1 (amended): outside the cooldown window, `detect_punch` reports a
punch iff (the accelerometer score exceeds PUNCH_TRIGGER_ACCEL_THRESHOLD or
the visual score exceeds the detector's visual threshold) AND the combined
score exceeds MINIMUM_COMBINED_SCORE — a conjunction, not a disjunction —
and the decision is invariant under arbitrary rewriting of every result's
`is_confident` flag, which `detect_punch` never reads. -/
theorem claim_C1 (fd : FusionDetector) (t : ℚ)
    (h : ¬ (t - fd.last_punch_time < fd.punch_cooldown)) :
    ((detect_punch fd t).is_punch = true ↔
      ((PUNCH_TRIGGER_ACCEL_THRESHOLD < accelScoreOf fd ∨
        fd.visual_punch_threshold < visualScoreOf fd) ∧
        MINIMUM_COMBINED_SCORE < (detect_punch fd t).combined_score)) ∧
    (∀ f : Bool → Bool,
      (detect_punch (mapConfident f fd) t).is_punch = (detect_punch fd t).is_punch) := by
  constructor
  · rw [detect_punch_eq fd t h]
    simp [is_punch_detected, Bool.and_eq_true, Bool.or_eq_true, decide_eq_true_eq]
  · intro f
    have h' : ¬ (t - (mapConfident f fd).last_punch_time <
        (mapConfident f fd).punch_cooldown) := h
    rw [detect_punch_eq fd t h, detect_punch_eq (mapConfident f fd) t h',
      mapConfident_accel, mapConfident_visual]
    rfl

/-- C1 witness: the amended decision rule instantiated at a detector with
one active accelerometer strategy of score 1, called at time 100. -/
theorem claim_C1_witness :
    ((detect_punch fdAccelOne 100).is_punch = true ↔
      ((PUNCH_TRIGGER_ACCEL_THRESHOLD < accelScoreOf fdAccelOne ∨
        fdAccelOne.visual_punch_threshold < visualScoreOf fdAccelOne) ∧
        MINIMUM_COMBINED_SCORE < (detect_punch fdAccelOne 100).combined_score)) ∧
    (∀ f : Bool → Bool,
      (detect_punch (mapConfident f fdAccelOne) 100).is_punch =
        (detect_punch fdAccelOne 100).is_punch) :=
  claim_C1 fdAccelOne 100 (by norm_num [fdAccelOne, PUNCH_COOLDOWN])

/-- C2 counterexample: with one active accelerometer strategy at score 1
(outside cooldown), the code returns combined score 0.7 — the weighted sum
with the constant weights — while the claim's normalised average
`sum(score·w)/sum(w)` equals 1. -/
theorem claim_C2_counterexample :
    ¬ (100 - fdAccelOne.last_punch_time < fdAccelOne.punch_cooldown) ∧
    (detect_punch fdAccelOne 100).combined_score = 7/10 ∧
    specCombinedScore fdAccelOne = 1 ∧ (7/10 : ℚ) ≠ 1 := by
  refine ⟨by norm_num [fdAccelOne, PUNCH_COOLDOWN], ?_, ?_, by norm_num⟩ <;>
    norm_num [detect_punch, fdAccelOne, PUNCH_COOLDOWN, collectResults, collectStep,
      specCombinedScore, specWeightOf, strContains, resultScore,
      ACCEL_WEIGHT, VISUAL_WEIGHT]

/-- C2 (amended): outside the cooldown window the combined score is the
plain weighted sum `accel_score · 0.7 + visual_score · 0.3` of the two
last-written per-source scores — there is no division by the active weight
sum; with no active strategy both scores are 0 and the combined score is 0. -/
theorem claim_C2 (fd : FusionDetector) (t : ℚ)
    (h : ¬ (t - fd.last_punch_time < fd.punch_cooldown)) :
    (detect_punch fd t).combined_score =
      accelScoreOf fd * ACCEL_WEIGHT + visualScoreOf fd * VISUAL_WEIGHT ∧
    (fd.strategies.filter (·.active) = [] → (detect_punch fd t).combined_score = 0) := by
  constructor
  · rw [detect_punch_eq fd t h]
  · intro hact
    rw [detect_punch_eq fd t h]
    show accelScoreOf fd * ACCEL_WEIGHT + visualScoreOf fd * VISUAL_WEIGHT = 0
    have hinactive : ∀ a ∈ fd.strategies, ¬ (a.active = true) :=
      List.filter_eq_nil_iff.mp hact
    have ha : accelScoreOf fd = 0 := by
      unfold accelScoreOf
      rw [List.filter_eq_nil_iff.mpr (fun a ha hq => hinactive a ha
        ((Bool.and_eq_true _ _).mp hq).1)]
      rfl
    have hv : visualScoreOf fd = 0 := by
      unfold visualScoreOf
      rw [List.filter_eq_nil_iff.mpr (fun a ha hq => hinactive a ha
        ((Bool.and_eq_true _ _).mp ((Bool.and_eq_true _ _).mp hq).1).1)]
      rfl
    rw [ha, hv]
    ring

/-- C2 witness: the amended combined-score formula instantiated at the
confident-strategy detector, called at time 100. -/
theorem claim_C2_witness :
    (detect_punch fdConfident 100).combined_score =
      accelScoreOf fdConfident * ACCEL_WEIGHT + visualScoreOf fdConfident * VISUAL_WEIGHT ∧
    (fdConfident.strategies.filter (·.active) = [] →
      (detect_punch fdConfident 100).combined_score = 0) :=
  claim_C2 fdConfident 100 (by norm_num [fdConfident, PUNCH_COOLDOWN])

theorem detect_cooldown_eq (fd : FusionDetector) (t : ℚ)
    (hc : t - fd.last_punch_time < fd.punch_cooldown) :
    detect_punch fd t = ⟨false, 0, none, fd⟩ := by
  unfold detect_punch
  rw [if_pos hc]

theorem detect_state_true (fd : FusionDetector) (t : ℚ)
    (hp : (detect_punch fd t).is_punch = true) :
    (detect_punch fd t).state = { fd with last_punch_time := t } := by
  unfold detect_punch at hp ⊢
  by_cases hc : t - fd.last_punch_time < fd.punch_cooldown
  · rw [if_pos hc] at hp
    exact absurd hp (by simp)
  · rw [if_neg hc] at hp ⊢
    have hb : is_punch_detected fd (collectResults fd.strategies).2.1
        (collectResults fd.strategies).2.2
        ((collectResults fd.strategies).2.1 * ACCEL_WEIGHT +
          (collectResults fd.strategies).2.2 * VISUAL_WEIGHT) = true := hp
    show (if is_punch_detected fd (collectResults fd.strategies).2.1
        (collectResults fd.strategies).2.2
        ((collectResults fd.strategies).2.1 * ACCEL_WEIGHT +
          (collectResults fd.strategies).2.2 * VISUAL_WEIGHT) = true
      then { fd with last_punch_time := t } else fd) = { fd with last_punch_time := t }
    rw [if_pos hb]

theorem detect_state_false (fd : FusionDetector) (t : ℚ)
    (hp : (detect_punch fd t).is_punch = false) :
    (detect_punch fd t).state = fd := by
  unfold detect_punch at hp ⊢
  by_cases hc : t - fd.last_punch_time < fd.punch_cooldown
  · rw [if_pos hc]
  · rw [if_neg hc] at hp ⊢
    have hb : is_punch_detected fd (collectResults fd.strategies).2.1
        (collectResults fd.strategies).2.2
        ((collectResults fd.strategies).2.1 * ACCEL_WEIGHT +
          (collectResults fd.strategies).2.2 * VISUAL_WEIGHT) = false := hp
    show (if is_punch_detected fd (collectResults fd.strategies).2.1
        (collectResults fd.strategies).2.2
        ((collectResults fd.strategies).2.1 * ACCEL_WEIGHT +
          (collectResults fd.strategies).2.2 * VISUAL_WEIGHT) = true
      then { fd with last_punch_time := t } else fd) = fd
    rw [if_neg (by simp [hb])]

/-- C4: the cooldown is a hard gate — if a call at `t₁` reports a punch,
any call within the cooldown window at `t₂` returns `(false, 0, {})` with
unchanged state, whatever the strategies say; and `last_punch_time` is set
to the call time exactly on true decisions, never on false ones. -/
theorem claim_C4 (s : FusionDetector) (t₁ t₂ : ℚ) :
    ((detect_punch s t₁).is_punch = true → t₂ - t₁ < s.punch_cooldown →
      ∀ strats : List Strategy,
        detect_punch { (detect_punch s t₁).state with strategies := strats } t₂ =
          ⟨false, 0, none, { (detect_punch s t₁).state with strategies := strats }⟩) ∧
    ((detect_punch s t₁).is_punch = true → (detect_punch s t₁).state.last_punch_time = t₁) ∧
    ((detect_punch s t₁).is_punch = false → (detect_punch s t₁).state = s) := by
  refine ⟨?_, ?_, ?_⟩
  · intro hp h2 strats
    rw [detect_state_true s t₁ hp]
    exact detect_cooldown_eq _ t₂ (by simpa using h2)
  · intro hp
    rw [detect_state_true s t₁ hp]
  · intro hp
    exact detect_state_false s t₁ hp

/-- C4 witness: a punch registered at t₁ = 10 silences a second call at
t₂ = 10.25 with the same strategies. -/
theorem claim_C4_witness :
    detect_punch { (detect_punch fdAccelOne 10).state with
        strategies := fdAccelOne.strategies } (41/4) =
      ⟨false, 0, none, { (detect_punch fdAccelOne 10).state with
        strategies := fdAccelOne.strategies }⟩ :=
  (claim_C4 fdAccelOne 10 (41/4)).1
    (by norm_num [detect_punch, fdAccelOne, PUNCH_COOLDOWN, collectResults, collectStep,
      is_punch_detected, strContains, resultScore, PUNCH_TRIGGER_ACCEL_THRESHOLD,
      VISUAL_PUNCH_THRESHOLD, MINIMUM_COMBINED_SCORE, ACCEL_WEIGHT, VISUAL_WEIGHT])
    (by norm_num [fdAccelOne, PUNCH_COOLDOWN])
    fdAccelOne.strategies

open List in
theorem hookGE_trans {κ : Type*} (a b c : Int × κ) :
    hookGE a b → hookGE b c → hookGE a c := by
  simp only [hookGE, decide_eq_true_eq]
  exact fun h1 h2 => le_trans h2 h1

theorem hookGE_total {κ : Type*} (a b : Int × κ) : hookGE a b || hookGE b a := by
  simp only [hookGE, Bool.or_eq_true, decide_eq_true_eq]
  exact le_total b.1 a.1

theorem register_hook_hooks {κ : Type*} (em : EventManager κ) (event_name : String)
    (cb : κ) (p : Int) :
    (register_hook em event_name cb p).hooks event_name =
      ((em.hooks event_name) ++ [(p, cb)]).mergeSort hookGE := by
  simp [register_hook]

theorem registerFrom_mem {κ : Type*} (event_name : String) :
    ∀ (regs : List (Int × κ)) (em : EventManager κ) (x : Int × κ),
      x ∈ em.hooks event_name → x ∈ (registerFrom em event_name regs).hooks event_name := by
  intro regs
  induction regs with
  | nil => intro em x hx; exact hx
  | cons pc rest ih =>
    intro em x hx
    refine ih _ x ?_
    rw [register_hook_hooks, List.mem_mergeSort]
    exact List.mem_append_left _ hx

theorem registerFrom_pair {κ : Type*} (event_name : String) :
    ∀ (regs : List (Int × κ)) (em : EventManager κ) (x y : Int × κ),
      y.1 ≤ x.1 → [x, y] <+ em.hooks event_name →
      [x, y] <+ (registerFrom em event_name regs).hooks event_name := by
  intro regs
  induction regs with
  | nil => intro em x y _ hxy; exact hxy
  | cons pc rest ih =>
    intro em x y hle hxy
    refine ih _ x y hle ?_
    rw [register_hook_hooks]
    exact List.pair_sublist_mergeSort hookGE_trans hookGE_total
      (by simpa [hookGE] using hle)
      (hxy.trans (List.sublist_append_left _ _))

theorem registerFrom_after {κ : Type*} (event_name : String) :
    ∀ (regs : List (Int × κ)) (em : EventManager κ) (x y : Int × κ),
      y.1 ≤ x.1 → x ∈ em.hooks event_name → y ∈ regs →
      [x, y] <+ (registerFrom em event_name regs).hooks event_name := by
  intro regs
  induction regs with
  | nil => intro em x y _ _ hy; exact absurd hy (List.not_mem_nil y)
  | cons pc rest ih =>
    intro em x y hle hx hy
    rcases List.mem_cons.mp hy with rfl | hy
    · refine registerFrom_pair event_name rest _ x y hle ?_
      rw [register_hook_hooks]
      exact List.pair_sublist_mergeSort hookGE_trans hookGE_total
        (by simpa [hookGE] using hle)
        (List.Sublist.append (List.singleton_sublist.mpr hx) (List.Sublist.refl [y]))
    · refine ih _ x y hle ?_ hy
      rw [register_hook_hooks, List.mem_mergeSort]
      exact List.mem_append_left _ hx

theorem registerFrom_stable {κ : Type*} (event_name : String) :
    ∀ (regs : List (Int × κ)) (em : EventManager κ) (x y : Int × κ),
      y.1 ≤ x.1 → [x, y] <+ regs →
      [x, y] <+ (registerFrom em event_name regs).hooks event_name := by
  intro regs
  induction regs with
  | nil => intro em x y _ hxy; exact absurd hxy (by simp)
  | cons pc rest ih =>
    intro em x y hle hxy
    cases hxy with
    | cons _ h => exact ih _ x y hle h
    | cons₂ _ h =>
      refine registerFrom_after event_name rest _ _ y hle ?_ (h.subset (by simp))
      rw [register_hook_hooks, List.mem_mergeSort]
      exact List.mem_append_right _ (by simp)

theorem registerFrom_sorted {κ : Type*} (event_name : String) :
    ∀ (regs : List (Int × κ)) (em : EventManager κ),
      (em.hooks event_name).Pairwise (fun a b => hookGE a b = true) →
      ((registerFrom em event_name regs).hooks event_name).Pairwise
        (fun a b => hookGE a b = true) := by
  intro regs
  induction regs with
  | nil => intro em h; exact h
  | cons pc rest ih =>
    intro em h
    refine ih _ ?_
    rw [register_hook_hooks]
    exact List.sorted_mergeSort hookGE_trans hookGE_total _

theorem registerFrom_perm {κ : Type*} (event_name : String) :
    ∀ (regs : List (Int × κ)) (em : EventManager κ),
      (registerFrom em event_name regs).hooks event_name ~
        em.hooks event_name ++ regs := by
  intro regs
  induction regs with
  | nil => intro em; simp [registerFrom]
  | cons pc rest ih =>
    intro em
    refine (ih _).trans ?_
    refine ((register_hook_hooks em event_name pc.2 pc.1 ▸
      (List.mergeSort_perm _ hookGE)).append_right rest).trans ?_
    rw [List.append_assoc]
    rfl

theorem trigger_eq_map {α β ε : Type*} (em : EventManager (α → Except ε β))
    (event_name : String) (args : α) :
    trigger_event em event_name args =
      (em.hooks event_name).map (fun pc =>
        match pc.2 args with
        | .ok v => some v
        | .error _ => none) := by
  unfold trigger_event
  generalize em.hooks event_name = l
  induction l using List.reverseRecOn with
  | nil => rfl
  | append_singleton l pc ih => rw [List.foldl_append, List.map_append, ih]; rfl

/-- C7: `trigger_event` runs every hook of the event in list order with the
same arguments, collecting one slot per hook in call order, where a raising
hook yields a `none` slot and never stops the iteration; the registration
order is descending priority with ties in registration order (the list is a
permutation of the registered pairs, sorted, and any two registrations in
priority-respecting order keep their relative order); concretely, H1 at
priority 5 then H2 at priority 10 runs H2 first, and H2 raising still runs
H1 with a `none` left in H2's slot. -/
theorem claim_C7 :
    (∀ (α β ε : Type) (em : EventManager (α → Except ε β)) (event_name : String) (args : α),
      trigger_event em event_name args =
        (em.hooks event_name).map (fun pc =>
          match pc.2 args with
          | .ok v => some v
          | .error _ => none)) ∧
    (∀ (κ : Type) (event_name : String) (regs : List (Int × κ)),
      ((registerAll event_name regs).hooks event_name).Pairwise
        (fun a b => b.1 ≤ a.1) ∧
      (registerAll event_name regs).hooks event_name ~ regs ∧
      (∀ x y : Int × κ, [x, y] <+ regs → y.1 ≤ x.1 →
        [x, y] <+ (registerAll event_name regs).hooks event_name)) ∧
    ((emPrio.hooks "x").map Prod.fst = [10, 5] ∧
      trigger_event emPrio "x" () = [none, some 1]) := by
  refine ⟨fun α β ε em event_name args => trigger_eq_map em event_name args,
    fun κ event_name regs => ⟨?_, ?_, ?_⟩, ?_, ?_⟩
  · exact (registerFrom_sorted event_name regs (EventManager.empty κ)
      (by simp [EventManager.empty])).imp (by simp [hookGE])
  · simpa [EventManager.empty] using registerFrom_perm event_name regs (EventManager.empty κ)
  · exact fun x y hxy hle => registerFrom_stable event_name regs (EventManager.empty κ) x y hle hxy
  · show ((register_hook (register_hook (EventManager.empty _) "x" hookOk 5)
      "x" hookRaise 10).hooks "x").map Prod.fst = [10, 5]
    rw [register_hook_hooks, register_hook_hooks]
    simp [EventManager.empty, List.mergeSort, List.MergeSort.Internal.mergeSortTR₂,
      List.splitInTwo, List.splitAt, List.splitAt.go, List.merge, hookGE]
  · have hhooks : emPrio.hooks "x" = [(10, hookRaise), (5, hookOk)] := by
      show ((register_hook (register_hook (EventManager.empty _) "x" hookOk 5)
        "x" hookRaise 10).hooks "x") = _
      rw [register_hook_hooks, register_hook_hooks]
      simp [EventManager.empty, List.mergeSort, List.splitInTwo, List.splitAt,
        List.splitAt.go, List.merge, hookGE]
    rw [trigger_eq_map, hhooks]
    rfl

/-- C7 witness: the ordering and exception behaviour at the concrete
two-handler registry. -/
theorem claim_C7_witness :
    (emPrio.hooks "x").map Prod.fst = [10, 5] ∧
      trigger_event emPrio "x" () = [none, some 1] :=
  claim_C7.2.2

theorem setItem_get {V : Type*} (k k' : String) (v : V) :
    ∀ c : Dict V, dictGet (setItem c k v) k' = if k' = k then some v else dictGet c k' := by
  intro c
  induction c with
  | nil =>
    by_cases h : k' = k
    · simp [setItem, dictGet, List.lookup, h]
    · have hb : (k' == k) = false := beq_eq_false_iff_ne.mpr h
      simp [setItem, dictGet, List.lookup, hb, h]
  | cons kv c ih =>
    obtain ⟨a, b⟩ := kv
    by_cases ha : a = k
    · subst ha
      by_cases h : k' = a
      · have hb : (k' == a) = true := beq_iff_eq.mpr h
        simp [setItem, dictGet, List.lookup, hb, h]
      · have hb : (k' == a) = false := beq_eq_false_iff_ne.mpr h
        simp [setItem, dictGet, List.lookup, hb, h]
    · by_cases h : k' = k
      · subst h
        have hb : (k' == a) = false :=
          beq_eq_false_iff_ne.mpr (fun he => ha (he.symm))
        simp only [setItem, if_neg ha, dictGet, List.lookup, hb] at ih ⊢
        rw [ih]
      · by_cases hk : k' = a
        · have hb : (k' == a) = true := beq_iff_eq.mpr hk
          simp [setItem, dictGet, List.lookup, if_neg ha, hb, h]
        · have hb : (k' == a) = false := beq_eq_false_iff_ne.mpr hk
          simp only [setItem, if_neg ha, dictGet, List.lookup, hb] at ih ⊢
          rw [ih]

theorem lookup_eq_none_of_not_mem {V : Type*} (k : String) :
    ∀ d : Dict V, k ∉ d.map Prod.fst → List.lookup k d = none := by
  intro d
  induction d with
  | nil => intro _; rfl
  | cons kv d ih =>
    obtain ⟨a, b⟩ := kv
    intro hk
    rw [List.map_cons, List.mem_cons] at hk
    push_neg at hk
    have hb : (k == a) = false := beq_eq_false_iff_ne.mpr hk.1
    simp only [List.lookup, hb]
    exact ih hk.2

theorem dictUpdate_get {V : Type*} (k : String) :
    ∀ (d c : Dict V), (d.map Prod.fst).Nodup →
      dictGet (dictUpdate c d) k = (dictGet d k <|> dictGet c k) := by
  intro d
  induction d with
  | nil => intro c _; simp [dictUpdate, dictGet, List.lookup]
  | cons kv d ih =>
    obtain ⟨a, b⟩ := kv
    intro c hnodup
    rw [List.map_cons, List.nodup_cons] at hnodup
    obtain ⟨hfst, hnd⟩ := hnodup
    show dictGet (dictUpdate (setItem c a b) d) k = _
    rw [ih (setItem c a b) hnd]
    by_cases hk : k = a
    · subst hk
      have hd : dictGet d k = none := by
        simp only [dictGet]
        exact lookup_eq_none_of_not_mem k d (by simpa using hfst)
      have hbt : (k == k) = true := beq_iff_eq.mpr rfl
      rw [hd, setItem_get]
      simp [dictGet, List.lookup, hbt]
    · have hb : (k == a) = false := beq_eq_false_iff_ne.mpr hk
      rw [setItem_get, if_neg hk]
      simp only [dictGet, List.lookup, hb]


/-- C8: the chained fire starts from (a shallow copy of) the initial
context and folds the handlers over it: decomposing the hook list around
any handler, the final context is the fold of the remaining handlers over
the context obtained by merging that handler's returned dict into the
running context — with a raising or non-dict-returning handler leaving the
context untouched while iteration continues; merging is key-wise overwrite
(the returned dict's binding wins, other keys read from the old context);
and in the concrete two-handler chain over {"y": 10}, the first handler's
{"y": 20} is observed by the second handler, which sees y = 20. -/
theorem claim_C8 :
    (∀ (V α ε : Type) (em : EventManager (Dict V → α → Except ε (ChainRet V)))
      (event_name : String) (initial_context : Dict V) (args : α)
      (pre post : List (Int × (Dict V → α → Except ε (ChainRet V))))
      (p : Int) (h : Dict V → α → Except ε (ChainRet V)),
      em.hooks event_name = pre ++ (p, h) :: post →
      trigger_event_chain em event_name initial_context args =
        post.foldl (chainStep args)
          (match h (pre.foldl (chainStep args) initial_context) args with
            | .ok (.dict d) => dictUpdate (pre.foldl (chainStep args) initial_context) d
            | _ => pre.foldl (chainStep args) initial_context)) ∧
    (∀ (V : Type) (c d : Dict V) (k : String),
      (d.map Prod.fst).Nodup →
      dictGet (dictUpdate c d) k = (dictGet d k <|> dictGet c k)) ∧
    (trigger_event_chain emChain "draw" [("y", 10)] () = [("y", 20), ("seen", 20)] ∧
      dictGet (trigger_event_chain emChain "draw" [("y", 10)] ()) "seen" = some 20) := by
  refine ⟨?_, fun V c d k hnd => dictUpdate_get k d c hnd, ?_⟩
  · intro V α ε em event_name initial_context args pre post p h heq
    unfold trigger_event_chain
    rw [heq, List.foldl_append, List.foldl_cons]
    have hstep : chainStep args (List.foldl (chainStep args) initial_context pre) (p, h) =
        match h (List.foldl (chainStep args) initial_context pre) args with
          | .ok (.dict d) => dictUpdate (List.foldl (chainStep args) initial_context pre) d
          | _ => List.foldl (chainStep args) initial_context pre := by
      rcases hr : h (List.foldl (chainStep args) initial_context pre) args with e | r
      · simp [chainStep, hr]
      · cases r with
        | dict d => simp [chainStep, hr]
        | nondict => simp [chainStep, hr]
    rw [hstep]
  · have hhooks : emChain.hooks "draw" = [(10, hookSetY), (5, hookSeen)] := by
      show ((register_hook (register_hook (EventManager.empty _) "draw" hookSetY 10)
        "draw" hookSeen 5).hooks "draw") = _
      rw [register_hook_hooks, register_hook_hooks]
      simp [EventManager.empty, List.mergeSort, List.splitInTwo, List.splitAt,
        List.splitAt.go, List.merge, hookGE]
    constructor
    · unfold trigger_event_chain
      rw [hhooks]
      rfl
    · unfold trigger_event_chain
      rw [hhooks]
      rfl

/-- C8 witness: the concrete chained fire over {"y": 10}. -/
theorem claim_C8_witness :
    trigger_event_chain emChain "draw" [("y", 10)] () = [("y", 20), ("seen", 20)] ∧
      dictGet (trigger_event_chain emChain "draw" [("y", 10)] ()) "seen" = some 20 :=
  claim_C8.2.2

theorem bestStep_some (gt : PunchEvent) (w : ℚ) (used : List ℕ)
    (best : Option (ℕ × PunchEvent × ℚ)) (p : ℕ × PunchEvent) (r : ℕ × PunchEvent × ℚ)
    (h : bestStep gt w used best p = some r) :
    some r = best ∨ (r = (p.1, p.2, p.2.timestamp - gt.timestamp) ∧ qualifies gt w used p) := by
  unfold bestStep at h
  by_cases hused : p.1 ∈ used
  · rw [if_pos hused] at h
    exact Or.inl h.symm
  · rw [if_neg hused] at h
    by_cases hq : |p.2.timestamp - gt.timestamp| ≤ w ∧ p.2.hand = gt.hand
    · rw [if_pos hq] at h
      cases best with
      | none =>
        exact Or.inr ⟨(Option.some.inj h).symm, hused, hq.1, hq.2⟩
      | some b =>
        have h' : (if |p.2.timestamp - gt.timestamp| < |b.2.2| then
            some (p.1, p.2, p.2.timestamp - gt.timestamp) else some b) = some r := h
        by_cases hlt : |p.2.timestamp - gt.timestamp| < |b.2.2|
        · rw [if_pos hlt] at h'
          exact Or.inr ⟨(Option.some.inj h').symm, hused, hq.1, hq.2⟩
        · rw [if_neg hlt] at h'
          exact Or.inl h'.symm
    · rw [if_neg hq] at h
      exact Or.inl h.symm

theorem bestStep_none (gt : PunchEvent) (w : ℚ) (used : List ℕ)
    (best : Option (ℕ × PunchEvent × ℚ)) (p : ℕ × PunchEvent)
    (h : bestStep gt w used best p = none) :
    best = none ∧ ¬ qualifies gt w used p := by
  unfold bestStep at h
  by_cases hused : p.1 ∈ used
  · rw [if_pos hused] at h
    exact ⟨h, fun hqq => hqq.1 hused⟩
  · rw [if_neg hused] at h
    by_cases hq : |p.2.timestamp - gt.timestamp| ≤ w ∧ p.2.hand = gt.hand
    · rw [if_pos hq] at h
      cases best with
      | none => exact absurd h (by simp)
      | some b =>
        have h' : (if |p.2.timestamp - gt.timestamp| < |b.2.2| then
            some (p.1, p.2, p.2.timestamp - gt.timestamp) else some b) = none := h
        by_cases hlt : |p.2.timestamp - gt.timestamp| < |b.2.2|
        · rw [if_pos hlt] at h'
          exact absurd h' (by simp)
        · rw [if_neg hlt] at h'
          exact absurd h' (by simp)
    · rw [if_neg hq] at h
      exact ⟨h, fun hqq => hq ⟨hqq.2.1, hqq.2.2⟩⟩

theorem bestStep_mono (gt : PunchEvent) (w : ℚ) (used : List ℕ)
    (b : ℕ × PunchEvent × ℚ) (p : ℕ × PunchEvent) (r : ℕ × PunchEvent × ℚ)
    (h : bestStep gt w used (some b) p = some r) :
    |r.2.2| ≤ |b.2.2| := by
  unfold bestStep at h
  by_cases hused : p.1 ∈ used
  · rw [if_pos hused] at h
    rw [Option.some.inj h.symm]
  · rw [if_neg hused] at h
    by_cases hq : |p.2.timestamp - gt.timestamp| ≤ w ∧ p.2.hand = gt.hand
    · rw [if_pos hq] at h
      have h' : (if |p.2.timestamp - gt.timestamp| < |b.2.2| then
          some (p.1, p.2, p.2.timestamp - gt.timestamp) else some b) = some r := h
      by_cases hlt : |p.2.timestamp - gt.timestamp| < |b.2.2|
      · rw [if_pos hlt] at h'
        rw [← Option.some.inj h']
        exact hlt.le
      · rw [if_neg hlt] at h'
        rw [← Option.some.inj h']
    · rw [if_neg hq] at h
      rw [Option.some.inj h.symm]

theorem bestStep_qual (gt : PunchEvent) (w : ℚ) (used : List ℕ)
    (best : Option (ℕ × PunchEvent × ℚ)) (p : ℕ × PunchEvent)
    (hq : qualifies gt w used p) :
    ∃ r, bestStep gt w used best p = some r ∧
      |r.2.2| ≤ |p.2.timestamp - gt.timestamp| := by
  unfold bestStep
  rw [if_neg hq.1, if_pos ⟨hq.2.1, hq.2.2⟩]
  cases best with
  | none => exact ⟨_, rfl, le_refl _⟩
  | some b =>
    by_cases hlt : |p.2.timestamp - gt.timestamp| < |b.2.2|
    · exact ⟨_, if_pos hlt, le_refl _⟩
    · exact ⟨b, if_neg hlt, not_lt.mp hlt⟩

theorem findBest_fold_some (gt : PunchEvent) (w : ℚ) (used : List ℕ) :
    ∀ (l : List (ℕ × PunchEvent)) (best : Option (ℕ × PunchEvent × ℚ))
      (r : ℕ × PunchEvent × ℚ),
      l.foldl (bestStep gt w used) best = some r →
      some r = best ∨ ((r.1, r.2.1) ∈ l ∧ qualifies gt w used (r.1, r.2.1) ∧
        r.2.2 = r.2.1.timestamp - gt.timestamp) := by
  intro l
  induction l with
  | nil => intro best r h; exact Or.inl h.symm
  | cons p rest ih =>
    intro best r h
    rw [List.foldl_cons] at h
    rcases ih _ r h with h' | ⟨hmem, hrest⟩
    · rcases bestStep_some gt w used best p r h'.symm with h'' | ⟨hr, hqq⟩
      · exact Or.inl h''
      · subst hr
        exact Or.inr ⟨List.mem_cons_self _ _, hqq, rfl⟩
    · exact Or.inr ⟨List.mem_cons_of_mem _ hmem, hrest⟩

theorem findBest_fold_none (gt : PunchEvent) (w : ℚ) (used : List ℕ) :
    ∀ (l : List (ℕ × PunchEvent)) (best : Option (ℕ × PunchEvent × ℚ)),
      l.foldl (bestStep gt w used) best = none →
      best = none ∧ ∀ p ∈ l, ¬ qualifies gt w used p := by
  intro l
  induction l with
  | nil => intro best h; exact ⟨h, by simp⟩
  | cons p rest ih =>
    intro best h
    rw [List.foldl_cons] at h
    obtain ⟨hstep, hrest⟩ := ih _ h
    obtain ⟨hb, hnq⟩ := bestStep_none gt w used best p hstep
    refine ⟨hb, fun q hqm => ?_⟩
    rcases List.mem_cons.mp hqm with rfl | hqm
    · exact hnq
    · exact hrest q hqm

theorem findBest_fold_min (gt : PunchEvent) (w : ℚ) (used : List ℕ) :
    ∀ (l : List (ℕ × PunchEvent)) (best : Option (ℕ × PunchEvent × ℚ))
      (r : ℕ × PunchEvent × ℚ),
      l.foldl (bestStep gt w used) best = some r →
      (∀ b, best = some b → |r.2.2| ≤ |b.2.2|) ∧
      (∀ p ∈ l, qualifies gt w used p → |r.2.2| ≤ |p.2.timestamp - gt.timestamp|) := by
  intro l
  induction l with
  | nil =>
    intro best r h
    refine ⟨fun b hb => ?_, by simp⟩
    rw [hb] at h
    rw [Option.some.inj h.symm]
  | cons p rest ih =>
    intro best r h
    rw [List.foldl_cons] at h
    obtain ⟨ihb, ihl⟩ := ih _ r h
    have hstep_mono : ∀ b, best = some b → |r.2.2| ≤ |b.2.2| := by
      intro b hb
      subst hb
      cases hs : bestStep gt w used (some b) p with
      | none =>
        obtain ⟨hb', -⟩ := bestStep_none gt w used _ p hs
        exact absurd hb' (by simp)
      | some b' =>
        exact le_trans (ihb b' hs) (bestStep_mono gt w used b p b' hs)
    refine ⟨hstep_mono, fun q hqm hqq => ?_⟩
    rcases List.mem_cons.mp hqm with rfl | hqm
    · obtain ⟨b', hb', hle⟩ := bestStep_qual gt w used best q hqq
      exact le_trans (ihb b' hb') hle
    · exact ihl q hqm hqq

theorem findBest_some_spec (dets : List (ℕ × PunchEvent)) (used : List ℕ)
    (gt : PunchEvent) (w : ℚ) (r : ℕ × PunchEvent × ℚ)
    (h : findBest dets used gt w = some r) :
    (r.1, r.2.1) ∈ dets ∧ qualifies gt w used (r.1, r.2.1) ∧
      r.2.2 = r.2.1.timestamp - gt.timestamp ∧
      ∀ p ∈ dets, qualifies gt w used p → |r.2.2| ≤ |p.2.timestamp - gt.timestamp| := by
  have h1 := findBest_fold_some gt w used dets none r h
  have h2 := (findBest_fold_min gt w used dets none r h).2
  rcases h1 with h' | ⟨hmem, hq, htd⟩
  · exact absurd h'.symm (by simp)
  · exact ⟨hmem, hq, htd, h2⟩

theorem findBest_none_spec (dets : List (ℕ × PunchEvent)) (used : List ℕ)
    (gt : PunchEvent) (w : ℚ) (h : findBest dets used gt w = none) :
    ∀ p ∈ dets, ¬ qualifies gt w used p :=
  (findBest_fold_none gt w used dets none h).2

theorem matchStep_gts (dets : List (ℕ × PunchEvent)) (w : ℚ)
    (st : List MatchResult × List ℕ) (gt : PunchEvent) :
    (matchStep dets w st gt).1.map (·.ground_truth) =
      st.1.map (·.ground_truth) ++ [gt] := by
  unfold matchStep
  cases h : findBest dets st.2 gt w with
  | none => simp
  | some r => obtain ⟨idx, det, td⟩ := r; simp

theorem matchStep_used_sub (dets : List (ℕ × PunchEvent)) (w : ℚ)
    (st : List MatchResult × List ℕ) (gt : PunchEvent) (x : ℕ) (hx : x ∈ st.2) :
    x ∈ (matchStep dets w st gt).2 := by
  unfold matchStep
  cases h : findBest dets st.2 gt w with
  | none => exact hx
  | some r =>
    obtain ⟨idx, det, td⟩ := r
    exact List.mem_append_left _ hx

theorem matchStep_used_nodup (dets : List (ℕ × PunchEvent)) (w : ℚ)
    (st : List MatchResult × List ℕ) (gt : PunchEvent) (hnd : st.2.Nodup) :
    (matchStep dets w st gt).2.Nodup := by
  unfold matchStep
  cases h : findBest dets st.2 gt w with
  | none => exact hnd
  | some r =>
    obtain ⟨idx, det, td⟩ := r
    have hfresh : idx ∉ st.2 := (findBest_some_spec dets st.2 gt w _ h).2.1.1
    simp [List.nodup_append, hnd, hfresh]

theorem matchStep_used_mem (dets : List (ℕ × PunchEvent)) (w : ℚ)
    (st : List MatchResult × List ℕ) (gt : PunchEvent) (i : ℕ)
    (hi : i ∈ (matchStep dets w st gt).2) :
    i ∈ st.2 ∨ ∃ d, (i, d) ∈ dets := by
  unfold matchStep at hi
  cases h : findBest dets st.2 gt w with
  | none =>
    rw [h] at hi
    exact Or.inl hi
  | some r =>
    obtain ⟨idx, det, td⟩ := r
    rw [h] at hi
    rcases List.mem_append.mp hi with hi | hi
    · exact Or.inl hi
    · rcases List.mem_singleton.mp hi with rfl
      exact Or.inr ⟨det, (findBest_some_spec dets st.2 gt w _ h).1⟩

theorem matchStep_count (dets : List (ℕ × PunchEvent)) (w : ℚ)
    (st : List MatchResult × List ℕ) (gt : PunchEvent) :
    ((matchStep dets w st gt).1.filter (fun mr => mr.matched_detection.isSome)).length +
        st.2.length =
      (st.1.filter (fun mr => mr.matched_detection.isSome)).length +
        (matchStep dets w st gt).2.length := by
  unfold matchStep
  cases h : findBest dets st.2 gt w with
  | none => simp
  | some r =>
    obtain ⟨idx, det, td⟩ := r
    simp [List.filter_append]
    omega

theorem matchStep_valid (dets : List (ℕ × PunchEvent)) (w : ℚ)
    (st : List MatchResult × List ℕ) (gt : PunchEvent) (mr : MatchResult)
    (hmr : mr ∈ (matchStep dets w st gt).1) :
    mr ∈ st.1 ∨ (mr.ground_truth = gt ∧ matchedValid dets w mr) := by
  unfold matchStep at hmr
  cases h : findBest dets st.2 gt w with
  | none =>
    rw [h] at hmr
    rcases List.mem_append.mp hmr with hmr | hmr
    · exact Or.inl hmr
    · rcases List.mem_singleton.mp hmr with rfl
      exact Or.inr ⟨rfl, fun det hdet => by simp at hdet⟩
  | some r =>
    obtain ⟨idx, det, td⟩ := r
    rw [h] at hmr
    rcases List.mem_append.mp hmr with hmr | hmr
    · exact Or.inl hmr
    · rcases List.mem_singleton.mp hmr with rfl
      obtain ⟨hmem, hq, htd, -⟩ := findBest_some_spec dets st.2 gt w _ h
      refine Or.inr ⟨rfl, fun det' hdet' => ?_⟩
      have hdd : det' = det := by
        have := hdet'
        simp at this
        exact this.symm
      subst hdd
      have htd2 : td = det'.timestamp - gt.timestamp := htd
      have hw : |td| ≤ w := by rw [htd2]; exact hq.2.1
      exact ⟨hq.2.2, td, rfl, htd2, hw, idx, hmem⟩

theorem matchFold_gts (dets : List (ℕ × PunchEvent)) (w : ℚ) :
    ∀ (gts : List PunchEvent) (st : List MatchResult × List ℕ),
      (gts.foldl (matchStep dets w) st).1.map (·.ground_truth) =
        st.1.map (·.ground_truth) ++ gts := by
  intro gts
  induction gts with
  | nil => intro st; simp
  | cons gt rest ih =>
    intro st
    rw [List.foldl_cons, ih, matchStep_gts]
    simp

theorem matchFold_used_sub (dets : List (ℕ × PunchEvent)) (w : ℚ) :
    ∀ (gts : List PunchEvent) (st : List MatchResult × List ℕ) (x : ℕ),
      x ∈ st.2 → x ∈ (gts.foldl (matchStep dets w) st).2 := by
  intro gts
  induction gts with
  | nil => intro st x hx; exact hx
  | cons gt rest ih =>
    intro st x hx
    exact ih _ x (matchStep_used_sub dets w st gt x hx)

theorem matchFold_used_nodup (dets : List (ℕ × PunchEvent)) (w : ℚ) :
    ∀ (gts : List PunchEvent) (st : List MatchResult × List ℕ),
      st.2.Nodup → (gts.foldl (matchStep dets w) st).2.Nodup := by
  intro gts
  induction gts with
  | nil => intro st h; exact h
  | cons gt rest ih =>
    intro st h
    exact ih _ (matchStep_used_nodup dets w st gt h)

theorem matchFold_used_mem (dets : List (ℕ × PunchEvent)) (w : ℚ) :
    ∀ (gts : List PunchEvent) (st : List MatchResult × List ℕ) (i : ℕ),
      i ∈ (gts.foldl (matchStep dets w) st).2 →
      i ∈ st.2 ∨ ∃ d, (i, d) ∈ dets := by
  intro gts
  induction gts with
  | nil => intro st i hi; exact Or.inl hi
  | cons gt rest ih =>
    intro st i hi
    rcases ih _ i hi with hi' | hd
    · exact matchStep_used_mem dets w st gt i hi'
    · exact Or.inr hd

theorem matchFold_count (dets : List (ℕ × PunchEvent)) (w : ℚ) :
    ∀ (gts : List PunchEvent) (st : List MatchResult × List ℕ),
      ((gts.foldl (matchStep dets w) st).1.filter
          (fun mr => mr.matched_detection.isSome)).length + st.2.length =
        (st.1.filter (fun mr => mr.matched_detection.isSome)).length +
          (gts.foldl (matchStep dets w) st).2.length := by
  intro gts
  induction gts with
  | nil => intro st; rfl
  | cons gt rest ih =>
    intro st
    rw [List.foldl_cons]
    have h1 := ih (matchStep dets w st gt)
    have h2 := matchStep_count dets w st gt
    omega

theorem matchFold_valid (dets : List (ℕ × PunchEvent)) (w : ℚ) :
    ∀ (gts : List PunchEvent) (st : List MatchResult × List ℕ) (mr : MatchResult),
      mr ∈ (gts.foldl (matchStep dets w) st).1 →
      mr ∈ st.1 ∨ (mr.ground_truth ∈ gts ∧ matchedValid dets w mr) := by
  intro gts
  induction gts with
  | nil => intro st mr hmr; exact Or.inl hmr
  | cons gt rest ih =>
    intro st mr hmr
    rcases ih _ mr hmr with hmr' | ⟨hgt, hval⟩
    · rcases matchStep_valid dets w st gt mr hmr' with h | ⟨hgt, hval⟩
      · exact Or.inl h
      · exact Or.inr ⟨by rw [hgt]; exact List.mem_cons_self _ _, hval⟩
    · exact Or.inr ⟨List.mem_cons_of_mem _ hgt, hval⟩

theorem matchStep_eq_some (dets : List (ℕ × PunchEvent)) (w : ℚ)
    (st : List MatchResult × List ℕ) (gt : PunchEvent) (idx : ℕ)
    (det : PunchEvent) (td : ℚ) (h : findBest dets st.2 gt w = some (idx, det, td)) :
    matchStep dets w st gt = (st.1 ++ [⟨gt, some det, some td⟩], st.2 ++ [idx]) := by
  unfold matchStep
  rw [h]

theorem matchStep_eq_none (dets : List (ℕ × PunchEvent)) (w : ℚ)
    (st : List MatchResult × List ℕ) (gt : PunchEvent)
    (h : findBest dets st.2 gt w = none) :
    matchStep dets w st gt = (st.1 ++ [⟨gt, none, none⟩], st.2) := by
  unfold matchStep
  rw [h]

theorem matchFold_min (dets : List (ℕ × PunchEvent)) (w : ℚ) :
    ∀ (gts : List PunchEvent) (st : List MatchResult × List ℕ),
      (∀ mr ∈ st.1, matchMinimal dets w (gts.foldl (matchStep dets w) st).2 mr) →
      ∀ mr ∈ (gts.foldl (matchStep dets w) st).1,
        matchMinimal dets w (gts.foldl (matchStep dets w) st).2 mr := by
  intro gts
  induction gts with
  | nil => intro st h mr hmr; exact h mr hmr
  | cons gt rest ih =>
    intro st h mr hmr
    rw [List.foldl_cons] at hmr ⊢
    simp only [List.foldl_cons] at h
    refine ih (matchStep dets w st gt) ?_ mr hmr
    intro mr' hmr'
    have hsub : ∀ i : ℕ, i ∈ st.2 →
        i ∈ (rest.foldl (matchStep dets w) (matchStep dets w st gt)).2 :=
      fun i hi => matchFold_used_sub dets w rest _ i (matchStep_used_sub dets w st gt i hi)
    cases hfb : findBest dets st.2 gt w with
    | none =>
      rw [matchStep_eq_none dets w st gt hfb] at hmr'
      rcases List.mem_append.mp hmr' with hold | hnew
      · exact h mr' hold
      · rcases List.mem_singleton.mp hnew with rfl
        constructor
        · intro det td hdet
          simp at hdet
        · intro _ p hp hpu
          have hpu' : p.1 ∉ st.2 := fun hin => hpu (hsub p.1 hin)
          have hnq := findBest_none_spec dets st.2 gt w hfb p hp
          intro hwh
          exact hnq ⟨hpu', hwh.1, hwh.2⟩
    | some r =>
      obtain ⟨idx, det, td⟩ := r
      rw [matchStep_eq_some dets w st gt idx det td hfb] at hmr'
      rcases List.mem_append.mp hmr' with hold | hnew
      · exact h mr' hold
      · rcases List.mem_singleton.mp hnew with rfl
        constructor
        · intro det' td' hdet' htd' p hp hpu hw hh
          have hdd : det' = det := by
            have := hdet'
            simp at this
            exact this.symm
          have htt : td' = td := by
            have := htd'
            simp at this
            exact this.symm
          subst hdd
          subst htt
          have hpu' : p.1 ∉ st.2 := fun hin => hpu (hsub p.1 hin)
          exact (findBest_some_spec dets st.2 gt w _ hfb).2.2.2 p hp ⟨hpu', hw, hh⟩
        · intro hnone
          simp at hnone

theorem filterSome_filterNone_length :
    ∀ l : List MatchResult,
      (l.filter (fun mr => mr.matched_detection.isSome)).length +
        (l.filter (fun mr => mr.matched_detection.isNone)).length = l.length := by
  intro l
  induction l with
  | nil => rfl
  | cons mr l ih =>
    cases h : mr.matched_detection with
    | none =>
      rw [List.filter_cons_of_neg (by simp [h]), List.filter_cons_of_pos (by simp [h])]
      simp only [List.length_cons]
      omega
    | some d =>
      rw [List.filter_cons_of_pos (by simp [h]), List.filter_cons_of_neg (by simp [h])]
      simp only [List.length_cons]
      omega

theorem filter_not_mem_length {α : Type*} :
    ∀ (l : List (ℕ × α)) (used : List ℕ),
      (l.map Prod.fst).Nodup → used.Nodup → (∀ i ∈ used, i ∈ l.map Prod.fst) →
      used.length + (l.filter (fun p => p.1 ∉ used)).length = l.length := by
  intro l
  induction l with
  | nil =>
    intro used _ _ hmem
    have : used = [] := List.eq_nil_iff_forall_not_mem.mpr (fun i hi => by
      simpa using hmem i hi)
    simp [this]
  | cons p l ih =>
    obtain ⟨i, a⟩ := p
    intro used hl hu hmem
    rw [List.map_cons, List.nodup_cons] at hl
    obtain ⟨hil, hln⟩ := hl
    by_cases hi : i ∈ used
    · rw [List.filter_cons_of_neg (by simp [hi])]
      have herase_len := List.length_erase_add_one hi
      have hcongr : l.filter (fun p => p.1 ∉ used) =
          l.filter (fun p => p.1 ∉ used.erase i) := by
        refine List.filter_congr (fun q hq => ?_)
        have hqne : q.1 ≠ i := by
          intro he
          have hq1 : q.1 ∈ l.map Prod.fst := List.mem_map_of_mem Prod.fst hq
          rw [he] at hq1
          exact hil hq1
        have : (q.1 ∈ used) ↔ (q.1 ∈ used.erase i) :=
          (List.mem_erase_of_ne hqne).symm
        simp [this]
      have hmem' : ∀ j ∈ used.erase i, j ∈ l.map Prod.fst := by
        intro j hj
        have hju : j ∈ used := List.mem_of_mem_erase hj
        have hjne : j ≠ i := by
          intro he
          subst he
          exact (List.Nodup.not_mem_erase hu) hj
        rcases List.mem_cons.mp (hmem j hju) with he | hm
        · exact absurd he hjne
        · exact hm
      have := ih (used.erase i) hln (hu.erase i) hmem'
      rw [hcongr]
      simp only [List.length_cons]
      omega
    · rw [List.filter_cons_of_pos (by simp [hi])]
      have hmem' : ∀ j ∈ used, j ∈ l.map Prod.fst := by
        intro j hj
        rcases List.mem_cons.mp (hmem j hj) with he | hm
        · exact absurd (show i ∈ used by rwa [he] at hj) hi
        · exact hm
      have := ih used hln hu hmem'
      simp only [List.length_cons]
      omega

theorem match_events_results (detections ground_truth : List PunchEvent) (w off : ℚ) :
    (match_events detections ground_truth w off).matched_results =
      (matchLoop detections.enum w (ground_truth.map (adjustEvent off))).1 := rfl

theorem match_events_used (detections ground_truth : List PunchEvent) (w off : ℚ) :
    (match_events detections ground_truth w off).unmatched_detections =
      (detections.enum.filter (fun p =>
        p.1 ∉ (matchLoop detections.enum w (ground_truth.map (adjustEvent off))).2)).map
        (·.2) := rfl

theorem match_events_tp (detections ground_truth : List PunchEvent) (w off : ℚ) :
    (match_events detections ground_truth w off).tp =
      ((matchLoop detections.enum w (ground_truth.map (adjustEvent off))).1.filter
        (fun mr => mr.matched_detection.isSome)).length := rfl

theorem match_events_fn (detections ground_truth : List PunchEvent) (w off : ℚ) :
    (match_events detections ground_truth w off).fn =
      ((matchLoop detections.enum w (ground_truth.map (adjustEvent off))).1.filter
        (fun mr => mr.matched_detection.isNone)).length := rfl

theorem match_events_fp (detections ground_truth : List PunchEvent) (w off : ℚ) :
    (match_events detections ground_truth w off).fp =
      ((detections.enum.filter (fun p =>
        p.1 ∉ (matchLoop detections.enum w (ground_truth.map (adjustEvent off))).2)).map
        (·.2)).length := rfl

theorem matchLoop_tp_eq_used (detections ground_truth : List PunchEvent) (w off : ℚ) :
    ((matchLoop detections.enum w (ground_truth.map (adjustEvent off))).1.filter
        (fun mr => mr.matched_detection.isSome)).length =
      (matchLoop detections.enum w (ground_truth.map (adjustEvent off))).2.length := by
  have h := matchFold_count detections.enum w (ground_truth.map (adjustEvent off)) ([], [])
  simpa [matchLoop] using h

/-- C6: the evaluator's matching is the claimed greedy 1:1 assignment — the
results list processes the offset-adjusted ground-truth events in their
given order; TP + FN equals the number of ground-truth events and TP + FP
equals the number of detections (each detection is paired at most once and
every never-paired detection is a false positive); every recorded match
shares the ground-truth hand, lies within ± window, and stores the signed
time difference; a matched result's |time difference| is minimal among the
finally-unmatched same-hand in-window detections, and an unmatched
ground-truth event has no same-hand in-window detection among them; and on
the claim's example — ground truth [(1.0, L)], detections [(1.05, L),
(1.05, R)], window 0.3 — TP = 1, FP = 1, FN = 0, with precision 1/2,
recall 1 and F1 = 2/3. -/
theorem claim_C6 (detections ground_truth : List PunchEvent) (w off : ℚ) :
    ((match_events detections ground_truth w off).matched_results.map (·.ground_truth) =
      ground_truth.map (adjustEvent off)) ∧
    ((match_events detections ground_truth w off).tp +
      (match_events detections ground_truth w off).fn = ground_truth.length) ∧
    ((match_events detections ground_truth w off).tp +
      (match_events detections ground_truth w off).fp = detections.length) ∧
    (∀ mr ∈ (match_events detections ground_truth w off).matched_results,
      matchedValid detections.enum w mr) ∧
    (∀ mr ∈ (match_events detections ground_truth w off).matched_results,
      ∀ d ∈ (match_events detections ground_truth w off).unmatched_detections,
        (∀ det td, mr.matched_detection = some det → mr.time_diff = some td →
          |d.timestamp - mr.ground_truth.timestamp| ≤ w →
          d.hand = mr.ground_truth.hand →
          |td| ≤ |d.timestamp - mr.ground_truth.timestamp|) ∧
        (mr.matched_detection = none →
          ¬(|d.timestamp - mr.ground_truth.timestamp| ≤ w ∧
            d.hand = mr.ground_truth.hand))) ∧
    ((match_events detsPair gtSingle (3/10) 0).tp = 1 ∧
      (match_events detsPair gtSingle (3/10) 0).fp = 1 ∧
      (match_events detsPair gtSingle (3/10) 0).fn = 0 ∧
      calculate_metrics 1 1 0 = (1/2, 1, 2/3)) := by
  have hfst_nodup : (detections.enum.map Prod.fst).Nodup := by
    rw [List.enum_map_fst]
    exact List.nodup_range _
  have hused_nodup : (matchLoop detections.enum w (ground_truth.map (adjustEvent off))).2.Nodup :=
    matchFold_used_nodup detections.enum w _ ([], []) (by simp)
  have hused_mem : ∀ i ∈ (matchLoop detections.enum w (ground_truth.map (adjustEvent off))).2,
      i ∈ detections.enum.map Prod.fst := by
    intro i hi
    rcases matchFold_used_mem detections.enum w _ ([], []) i hi with h0 | ⟨d, hd⟩
    · simp at h0
    · exact List.mem_map_of_mem Prod.fst hd
  refine ⟨?_, ?_, ?_, ?_, ?_, ?_, ?_, ?_, ?_⟩
  · rw [match_events_results]
    have := matchFold_gts detections.enum w (ground_truth.map (adjustEvent off)) ([], [])
    simpa [matchLoop] using this
  · rw [match_events_tp, match_events_fn]
    rw [filterSome_filterNone_length]
    have := matchFold_gts detections.enum w (ground_truth.map (adjustEvent off)) ([], [])
    have hlen := congrArg List.length this
    simp only [List.length_map, List.nil_append, List.length_nil] at hlen
    simpa [matchLoop] using hlen
  · rw [match_events_tp, match_events_fp, matchLoop_tp_eq_used, List.length_map]
    have := filter_not_mem_length detections.enum
      (matchLoop detections.enum w (ground_truth.map (adjustEvent off))).2
      hfst_nodup hused_nodup hused_mem
    rw [this]
    exact List.enum_length
  · intro mr hmr
    rw [match_events_results] at hmr
    rcases matchFold_valid detections.enum w (ground_truth.map (adjustEvent off))
      ([], []) mr hmr with h0 | ⟨-, hval⟩
    · simp at h0
    · exact hval
  · intro mr hmr d hd
    rw [match_events_results] at hmr
    rw [match_events_used] at hd
    obtain ⟨p, hp, hpd⟩ := List.mem_map.mp hd
    obtain ⟨hpe, hpu⟩ := List.mem_filter.mp hp
    have hpu' : p.1 ∉ (matchLoop detections.enum w (ground_truth.map (adjustEvent off))).2 := by
      simpa using hpu
    have hmin := matchFold_min detections.enum w (ground_truth.map (adjustEvent off))
      ([], []) (by simp) mr hmr
    constructor
    · intro det td hdet htd hw hh
      have := hmin.1 det td hdet htd p hpe hpu'
      rw [hpd] at this
      exact this hw hh
    · intro hnone
      have := hmin.2 hnone p hpe hpu'
      rw [hpd] at this
      exact this
  · norm_num [match_events, matchLoop, matchStep, findBest, bestStep, detsPair, gtSingle,
      List.enum, adjustEvent, abs_of_nonneg, abs_of_pos, List.enumFrom, qualifies]
  · norm_num [match_events, matchLoop, matchStep, findBest, bestStep, detsPair, gtSingle,
      List.enum, adjustEvent, abs_of_nonneg, abs_of_pos, List.enumFrom, qualifies]
  · norm_num [match_events, matchLoop, matchStep, findBest, bestStep, detsPair, gtSingle,
      List.enum, adjustEvent, abs_of_nonneg, abs_of_pos, List.enumFrom, qualifies]
  · norm_num [calculate_metrics]

/-- C6 witness: the claim instantiated at the example lists. -/
theorem claim_C6_witness :
    (match_events detsPair gtSingle (3/10) 0).matched_results.map (·.ground_truth) =
      gtSingle.map (adjustEvent 0) ∧
    (match_events detsPair gtSingle (3/10) 0).tp +
      (match_events detsPair gtSingle (3/10) 0).fn = gtSingle.length := by
  have h := claim_C6 detsPair gtSingle (3/10) 0
  exact ⟨h.1, h.2.1⟩

end KlaiKriad
